import Mathlib

/-!
Verification development for `minion/backend/views/sites.py` of the
minion-backend repository.

The Python module is shallowly embedded: the Mongo collections become lists
of records, the Flask handlers become pure functions from a request and a
store state to a response and a new store state, and an uncaught Python
exception is modelled as an `Except.error` result.  The URL validation
regular expression is embedded as a backtracking matcher over `List Char`
whose combinators return every possible remainder of the input, mirroring
the nondeterministic semantics of the regular expression; `re.match`
(anchored at the start only) is modelled as "some remainder exists".
-/

namespace MinionBackend

/-! ## Character classes appearing in the regular expression of
`_check_site_url` (ASCII reading of the pattern; Python `\d` would also
accept non-ASCII decimal digits, which play no role here). -/

def isLowerAZ (c : Char) : Bool := decide ('a' ≤ c ∧ c ≤ 'z')

def isDigit09 (c : Char) : Bool := decide ('0' ≤ c ∧ c ≤ '9')

/-- Class `[a-z0-9]`. -/
def isHostStart (c : Char) : Bool := isLowerAZ c || isDigit09 c

/-- Class `[-a-z0-9]`. -/
def isHostChar (c : Char) : Bool := c == '-' || isLowerAZ c || isDigit09 c

def isNonZero (c : Char) : Bool := decide ('1' ≤ c ∧ c ≤ '9')

def isOct14 (c : Char) : Bool := decide ('0' ≤ c ∧ c ≤ '4')

def isOct15 (c : Char) : Bool := decide ('0' ≤ c ∧ c ≤ '5')

def isOct12 (c : Char) : Bool := decide ('0' ≤ c ∧ c ≤ '2')

def isOneTwo (c : Char) : Bool := c == '1' || c == '2'

/-! ## A small matcher engine for the regular expression

A `Matcher` consumes a prefix of the input and returns the list of all
possible remainders.  Sequencing, alternation, optionality, character
classes and literals are the only constructs the pattern uses, plus `*`
on a character class and `+` on a group.  The `+` group of the pattern
(`(\.[a-z0-9][-a-z0-9]*)+`) always consumes at least one character per
iteration, so iterating it `fuel` times with `fuel` the length of the
input is exact. -/

abbrev Matcher := List Char → List (List Char)

def concatMap (f : α → List β) : List α → List β
  | [] => []
  | x :: xs => f x ++ concatMap f xs

def mChar (p : Char → Bool) : Matcher := fun s =>
  match s with
  | [] => []
  | c :: cs => if p c then [cs] else []

/-- Removes the literal `l` from the front of `s`, if present. -/
def dropLit : List Char → List Char → Option (List Char)
  | [], s => some s
  | _ :: _, [] => none
  | c :: l, d :: s => if c = d then dropLit l s else none

def mLit (l : List Char) : Matcher := fun s =>
  match dropLit l s with
  | some r => [r]
  | none => []

def mSeq (m₁ m₂ : Matcher) : Matcher := fun s => concatMap m₂ (m₁ s)

def mAlt (m₁ m₂ : Matcher) : Matcher := fun s => m₁ s ++ m₂ s

def mOpt (m : Matcher) : Matcher := fun s => m s ++ [s]

/-- Kleene star of a character class: all remainders after consuming an
initial (possibly empty) run of characters satisfying `p`. -/
def mStarCls (p : Char → Bool) : List Char → List (List Char)
  | [] => [[]]
  | c :: cs => (c :: cs) :: (if p c then mStarCls p cs else [])

/-- One-or-more repetitions of `m`, bounded by `fuel` iterations. -/
def mPlus (m : Matcher) : Nat → List Char → List (List Char)
  | 0, _ => []
  | fuel + 1, s => concatMap (fun r => r :: mPlus m fuel r) (m s)

/-! ## The regular expression of `_check_site_url`

```
^((http|https)://(localhost|([a-z0-9][-a-z0-9]*)(\.[a-z0-9][-a-z0-9]*)+)(:\d+)?)
|
((([0-9]|[1-9][0-9]|1[0-9]{2}|2[0-4][0-9]|25[0-5])\.){3}([0-9]|[1-9][0-9]|1[0-9]{2}|2[0-4][0-9]|25[0-5])(\/(\d|[1-2]\d|3[0-2]))?)$
```

The alternation binds loosest, so the first alternative is anchored only at
the start (`re.match` anchors there anyway) and the second alternative only
at the end.  Python `$` also matches just before one final newline. -/

/-- Fragment `(http|https)://`. -/
def schemeM : Matcher :=
  mSeq (mAlt (mLit "http".data) (mLit "https".data)) (mLit "://".data)

/-- Fragment `[-a-z0-9]*`. -/
def labelTailM : Matcher := mStarCls isHostChar

/-- Fragment `\.[a-z0-9][-a-z0-9]*`. -/
def dotLabelM : Matcher := mSeq (mLit ['.']) (mSeq (mChar isHostStart) labelTailM)

/-- Fragment `([a-z0-9][-a-z0-9]*)(\.[a-z0-9][-a-z0-9]*)+`. -/
def hostnameM (fuel : Nat) : Matcher :=
  mSeq (mChar isHostStart) (mSeq labelTailM (mPlus dotLabelM fuel))

/-- Fragment `localhost|([a-z0-9][-a-z0-9]*)(\.[a-z0-9][-a-z0-9]*)+`. -/
def hostM (fuel : Nat) : Matcher := mAlt (mLit "localhost".data) (hostnameM fuel)

/-- Fragment `(:\d+)?`. -/
def portM : Matcher :=
  mOpt (mSeq (mChar (· == ':')) (mSeq (mChar isDigit09) (mStarCls isDigit09)))

/-- First alternative of the pattern. -/
def altA (fuel : Nat) : Matcher := mSeq schemeM (mSeq (hostM fuel) portM)

/-- Fragment `[0-9]|[1-9][0-9]|1[0-9]{2}|2[0-4][0-9]|25[0-5]`. -/
def octetM : Matcher :=
  mAlt (mChar isDigit09)
    (mAlt (mSeq (mChar isNonZero) (mChar isDigit09))
      (mAlt (mSeq (mChar (· == '1')) (mSeq (mChar isDigit09) (mChar isDigit09)))
        (mAlt (mSeq (mChar (· == '2')) (mSeq (mChar isOct14) (mChar isDigit09)))
          (mSeq (mChar (· == '2')) (mSeq (mChar (· == '5')) (mChar isOct15))))))

/-- Fragment `\d|[1-2]\d|3[0-2]`. -/
def cidrNumM : Matcher :=
  mAlt (mChar isDigit09)
    (mAlt (mSeq (mChar isOneTwo) (mChar isDigit09))
      (mSeq (mChar (· == '3')) (mChar isOct12)))

/-- Fragment `([0-9]|…|25[0-5])\.`. -/
def octDotM : Matcher := mSeq octetM (mLit ['.'])

/-- Fragment `(\/(\d|[1-2]\d|3[0-2]))?`. -/
def cidrM : Matcher := mOpt (mSeq (mChar (· == '/')) cidrNumM)

/-- Second alternative of the pattern (without its `$`). -/
def altB : Matcher := mSeq octDotM (mSeq octDotM (mSeq octDotM (mSeq octetM cidrM)))

/-- Python `$`: end of input, or just before one final newline. -/
def endAnchor (r : List Char) : Bool := r == ([] : List Char) || r == ['\n']

/-- Embedding of `_check_site_url` (sites.py lines 16–20): `re.match`
succeeds iff the first alternative consumes some prefix, or the second
alternative consumes a prefix whose remainder satisfies `$`. -/
def check_site_url (url : String) : Bool :=
  let cs := url.data
  !(altA cs.length cs).isEmpty || (altB cs).any endAnchor

/-! ## Direct characterizations of the two alternatives

`schemeHostOk` and `ipv4Spec` restate, by direct scanning, which strings the
embedded regular expression accepts; the equivalence is proved below.
Because the first alternative has no end anchor, a match only requires the
scheme, then `localhost` or the first two hostname labels; everything after
that point is unconstrained (in particular the optional port can never make
a difference to acceptance). -/

/-- Some run of `[-a-z0-9]` characters, then a dot, then `[a-z0-9]`. -/
def hasLabelDot : List Char → Bool
  | [] => false
  | [_] => false
  | a :: b :: rest => (a == '.' && isHostStart b) || (isHostChar a && hasLabelDot (b :: rest))

/-- One `[a-z0-9]` character, then `hasLabelDot`: the input starts with at
least the first two labels of a hostname. -/
def hostnameStartOk : List Char → Bool
  | [] => false
  | c :: rest => isHostStart c && hasLabelDot rest

/-- After the scheme: the literal `localhost`, or the start of a ≥2-label
hostname.  Everything beyond is unconstrained. -/
def hostTailOk (cs : List Char) : Bool :=
  (dropLit "localhost".data cs).isSome || hostnameStartOk cs

/-- The input starts with `http://` or `https://` followed by an accepted
host start. -/
def schemeHostOk (cs : List Char) : Bool :=
  match dropLit "http://".data cs with
  | some rest => hostTailOk rest
  | none =>
    match dropLit "https://".data cs with
    | some rest => hostTailOk rest
    | none => false

/-- The strings generated by the octet fragment of the pattern. -/
def octetStrOk : List Char → Bool
  | [a] => isDigit09 a
  | [a, b] => isNonZero a && isDigit09 b
  | [a, b, c] =>
    (a == '1' && (isDigit09 b && isDigit09 c)) ||
    (a == '2' && (isOct14 b && isDigit09 c)) ||
    (a == '2' && (b == '5' && isOct15 c))
  | _ => false

/-- The strings generated by the CIDR-number fragment of the pattern. -/
def cidrStrOk : List Char → Bool
  | [a] => isDigit09 a
  | [a, b] => (isOneTwo a && isDigit09 b) || (a == '3' && isOct12 b)
  | _ => false

/-- Consumes one octet followed by a dot; since an octet is a maximal run
of digits here (the next character must be the non-digit `.`), the split is
forced. -/
def octetDotStep (cs : List Char) : Option (List Char) :=
  match cs.dropWhile isDigit09 with
  | '.' :: rest => if octetStrOk (cs.takeWhile isDigit09) then some rest else none
  | _ => none

/-- Final octet, optional `/cidr`, and the end anchor. -/
def ipv4SpecTail (cs : List Char) : Bool :=
  octetStrOk (cs.takeWhile isDigit09) &&
    (match cs.dropWhile isDigit09 with
     | [] => true
     | ['\n'] => true
     | '/' :: rest =>
       cidrStrOk (rest.takeWhile isDigit09) &&
         (match rest.dropWhile isDigit09 with
          | [] => true
          | ['\n'] => true
          | _ => false)
     | _ => false)

/-- The whole input (up to one final newline) is a dotted-quad IPv4 address
built from the pattern's octets, optionally followed by `/0`–`/32`. -/
def ipv4Spec (cs : List Char) : Bool :=
  match octetDotStep cs with
  | none => false
  | some r₁ =>
    match octetDotStep r₁ with
    | none => false
    | some r₂ =>
      match octetDotStep r₂ with
      | none => false
      | some r₃ => ipv4SpecTail r₃

/-- Amended characterization of `_check_site_url`, proved equivalent to the
embedded regular expression below. -/
def siteUrlAmendedSpec (url : String) : Bool :=
  schemeHostOk url.data || ipv4Spec url.data

/-! ## The grammar stated by the claim (C1)

Written from the claim's words, not from the code: `http(s)://` followed by
(`localhost` | a DNS hostname with at least 2 labels | a dotted-quad IPv4
address optionally followed by a `/0-32` CIDR suffix) plus an optional
`:port`, with nothing else around it. -/

/-- Splits a character list at every occurrence of `sep` (the separators
are dropped). -/
def splitOnChar (sep : Char) : List Char → List (List Char)
  | [] => [[]]
  | c :: cs =>
    if c = sep then [] :: splitOnChar sep cs
    else
      match splitOnChar sep cs with
      | [] => [[c]]
      | p :: ps => (c :: p) :: ps

/-- Digits-only numeral value. -/
def digitsVal (cs : List Char) : Option Nat :=
  if cs ≠ [] && cs.all isDigit09 then
    some (cs.foldl (fun a c => a * 10 + (c.toNat - '0'.toNat)) 0)
  else none

/-- Decimal numeral without a superfluous leading zero, value ≤ `bound`. -/
def boundedNumeral (bound : Nat) (cs : List Char) : Bool :=
  (cs == ['0'] || (cs.headD '0' != '0')) &&
    (match digitsVal cs with
     | some v => decide (v ≤ bound)
     | none => false)

/-- Claim's hostname: at least two labels, each nonempty, starting with an
alphanumeric and continuing with `[-a-z0-9]`. -/
def claimHostnameOk (cs : List Char) : Bool :=
  let parts := splitOnChar '.' cs
  decide (2 ≤ parts.length) &&
    parts.all (fun p =>
      match p with
      | [] => false
      | c :: rest => isHostStart c && rest.all isHostChar)

/-- Claim's dotted-quad IPv4 with optional `/0-32` CIDR suffix. -/
def claimIPv4Ok (cs : List Char) : Bool :=
  let slashParts := splitOnChar '/' cs
  let quadOk := fun (q : List Char) =>
    let octs := splitOnChar '.' q
    octs.length == 4 && octs.all (boundedNumeral 255)
  match slashParts with
  | [q] => quadOk q
  | [q, c] => quadOk q && boundedNumeral 32 c
  | _ => false

/-- Claim's optional `:port`. -/
def claimPortOk : List Char → Bool
  | [] => true
  | ':' :: rest => rest != [] && rest.all isDigit09
  | _ => false

/-- The accepted-URL grammar exactly as claim C1 states it: scheme, then
host (one of the three host forms), then an optional port, end of string. -/
def claimSiteUrlGrammar (url : String) : Bool :=
  let afterScheme :=
    match dropLit "http://".data url.data with
    | some rest => some rest
    | none => dropLit "https://".data url.data
  match afterScheme with
  | none => false
  | some rest =>
    let hostPart := rest.takeWhile (· != ':')
    let portPart := rest.dropWhile (· != ':')
    (hostPart == "localhost".data || claimHostnameOk hostPart ||
      claimIPv4Ok hostPart) && claimPortOk portPart

/-! Concrete evaluations of the claim grammar and the amended
characterization. -/

example : claimSiteUrlGrammar "http://www.mozilla.com" = true := by decide
example : claimSiteUrlGrammar "https://1.2.3.4/32:80" = true := by decide
example : claimSiteUrlGrammar "1.2.3.4" = false := by decide
example : claimSiteUrlGrammar "http://foo" = false := by decide
example : claimSiteUrlGrammar "http://a.b/33" = false := by decide
example : siteUrlAmendedSpec "http://www.mozilla.com" = true := by decide
example : siteUrlAmendedSpec "1.2.3.4" = true := by decide
example : siteUrlAmendedSpec "http://a.b/33" = true := by decide
example : siteUrlAmendedSpec "ftp://x" = false := by decide
example : siteUrlAmendedSpec "1.2.3.4/33" = false := by decide

example : check_site_url "http://www.mozilla.com" = true := by decide
example : check_site_url "https://www.mozilla.com:8080" = true := by decide
example : check_site_url "http://localhost" = true := by decide
example : check_site_url "http://foo" = false := by decide
example : check_site_url "ftp://x" = false := by decide
example : check_site_url "1.2.3.4" = true := by decide
example : check_site_url "1.2.3.4/32" = true := by decide
example : check_site_url "1.2.3.4/33" = false := by decide
example : check_site_url "http://a.b/33" = true := by decide
example : check_site_url "256.1.1.1" = false := by decide
example : check_site_url "" = false := by decide

/-! ## Data model

The Mongo collections used by sites.py become lists of records kept in
insertion order.  The pymongo operations the module uses are:
`find`/`find_one` (first match), `insert` (append), single-document
`update` with `$set`/`$addToSet`/`$pull` (first match), and multi-document
`remove`. -/

/-- Updates the first element satisfying `p`, leaving the rest unchanged
(pymongo single-document `update`). -/
def updateFirst (p : α → Bool) (f : α → α) : List α → List α
  | [] => []
  | x :: xs => if p x then f x :: xs else x :: updateFirst p f xs

structure Group where
  name : String
  sites : List String
deriving DecidableEq, Repr

structure Verification where
  enabled : Bool
  value : Option String
deriving DecidableEq, Repr

structure Site where
  id : String
  url : String
  plans : List String
  created : Nat
  verification : Option Verification
deriving DecidableEq, Repr

structure Crontab where
  minute : String
  hour : String
  day_of_week : String
  day_of_month : String
  month_of_year : String
deriving DecidableEq, Repr

/-- One record of the `scanschedules` collection (the task descriptor
inserted by `scanschedule`). -/
structure Schedule where
  cls : String
  task : String
  args : List String
  site : String
  queue : String
  routing_key : String
  exchange : String
  plan : String
  name : String
  enabled : Bool
  crontab : Crontab
deriving DecidableEq, Repr

/-- The `authData` dictionary: every key is read with `.get`, so an absent
key and an explicit `null` both appear as `none`. -/
structure AuthData where
  method : Option String
  url : Option String
  email : Option String
  before_login_element_xpath : Option String
  login_button_xpath : Option String
  login_script : Option String
  after_login_element_xpath : Option String
  username : Option String
  username_field_xpath : Option String
  password_field_xpath : Option String
  expected_cookies : Option String
  password : Option String
  remove : Option Bool
deriving DecidableEq, Repr

structure Credential where
  site : String
  plan : String
  authData : AuthData
deriving DecidableEq, Repr

/-- The collections touched by sites.py.  The `plans` collection is only
consulted through `_check_plan_exists`, which lives outside src/, so it is
reduced to the list of existing plan names. -/
structure Stores where
  sites : List Site
  groups : List Group
  plans : List String
  scanschedules : List Schedule
  siteCredentials : List Credential
deriving DecidableEq, Repr

/-- Mongo query predicates used by the handlers. -/
def siteIdIs (site_id : String) (s : Site) : Bool := s.id == site_id

def siteUrlIs (u : String) (s : Site) : Bool := s.url == u

def groupNameIs (n : String) (g : Group) : Bool := g.name == n

def credKeyIs (site plan : String) (c : Credential) : Bool :=
  c.site == site && c.plan == plan

def schedKeyIs (site plan : String) (r : Schedule) : Bool :=
  r.site == site && r.plan == plan

/-- Python truthiness of an optional boolean JSON value. -/
def truthy : Option Bool → Bool
  | some b => b
  | none => false

/-- Python truthiness of an optional string (`None` and `""` are falsy). -/
def truthyStr : Option String → Bool
  | some s => s != ""
  | none => false

/-- Python `str(...)` applied to a string-or-None JSON value, as done on
the crontab fields of a schedule request. -/
def pyStr : Option String → String
  | none => "None"
  | some s => s

/-- An uncaught Python exception. -/
inductive PyError
  | typeError
  | keyError
deriving DecidableEq, Repr

/-! ## Collaborators imported from modules outside src/ -/

/-- Modelled from the spec: `_check_group_exists` (minion/backend/views/
groups.py, not under src/) — a referenced group exists iff a group record
with that name is present. -/
def check_group_exists (st : Stores) (name : String) : Bool :=
  st.groups.any (fun g => g.name == name)

/-- Modelled from the spec: `_check_plan_exists` (minion/backend/views/
plans.py, not under src/) — a referenced plan exists iff its name is
present in the plan collection. -/
def check_plan_exists (st : Stores) (name : String) : Bool :=
  st.plans.contains name

/-! ## `_find_groups_for_site` and `sanitize_site` (sites.py lines 28–37) -/

/-- `[g['name'] for g in groups.find({"sites": site})]`. -/
def find_groups_for_site (gs : List Group) (site : String) : List String :=
  (gs.filter (fun g => g.sites.contains site)).map (fun g => g.name)

/-! ## `check_cron` (sites.py lines 40–73)

`crontab_parser` comes from celery.schedules, an external dependency whose
source is not part of this repository. -/

/-- Digits-only numeral as used by the cron parser model. -/
def cronNumOk (lo hi : Nat) (cs : List Char) : Bool :=
  match digitsVal cs with
  | some v => decide (lo ≤ v) && decide (v ≤ hi)
  | none => false

/-- Modelled from the spec: one comma-separated part of a cron field
accepts the union/range/step cron mini-grammar (`*`, `*/step`, `n`, `a-b`,
`a-b/step`, numbers inside `[lo, hi]`, positive step); everything else
raises inside celery's `crontab_parser` and so fails validation. -/
def cronPartOk (lo hi : Nat) (part : List Char) : Bool :=
  let base := part.takeWhile (· != '/')
  let stepOk :=
    match part.dropWhile (· != '/') with
    | [] => true
    | '/' :: s =>
      (match digitsVal s with
       | some v => decide (1 ≤ v)
       | none => false)
    | _ => false
  stepOk &&
    (base == ['*'] || cronNumOk lo hi base ||
      (match base.dropWhile (· != '-') with
       | '-' :: hiPart =>
         (match digitsVal (base.takeWhile (· != '-')), digitsVal hiPart with
          | some a, some b =>
            decide (lo ≤ a) && decide (a ≤ b) && decide (b ≤ hi)
          | _, _ => false)
       | _ => false))

/-- Modelled from the spec: `crontab_parser(max_, min_).parse(s)` succeeds,
the accepted values being `[min_, min_ + max_ - 1]`.  The field is split on
commas exactly as Python's `str.split(',')` does; an empty part (in
particular the empty string) fails. -/
def cronParseOk (max_ min_ : Nat) (s : String) : Bool :=
  (splitOnChar ',' s.data).all (fun p => p != [] && cronPartOk min_ (min_ + max_ - 1) p)

/-- Embedding of `check_cron` (sites.py lines 40–73): each of the five
fields is validated independently and every failing field appends one
error string, in source order. -/
def check_cron (c : Crontab) : List String :=
  (if cronParseOk 60 0 c.minute then [] else ["Error in Value: Minute"]) ++
  (if cronParseOk 24 0 c.hour then [] else ["Error in Value: Hour"]) ++
  (if cronParseOk 7 0 c.day_of_week then [] else ["Error in Value: Day of Week"]) ++
  (if cronParseOk 31 1 c.day_of_month then [] else ["Error in Value: Day of Month"]) ++
  (if cronParseOk 12 1 c.month_of_year then [] else ["Error in Value: Month of Year"])

example : check_cron ⟨"99", "5", "*", "15", "13"⟩ =
    ["Error in Value: Minute", "Error in Value: Month of Year"] := by decide
example : check_cron ⟨"*/5", "1-3", "1,3,5", "15", "12"⟩ = [] := by decide
example : check_cron ⟨"0", "0", "*", "1", "1"⟩ = [] := by decide
example : check_cron ⟨"None", "None", "None", "None", "None"⟩ ≠ [] := by decide

/-! ## Requests and responses -/

/-- JSON body of `POST /sites` and `POST /sites/<site_id>`.  Every field is
optional; the `verification` object is reduced to its `enabled` flag (the
only key the code reads from it). -/
structure SiteReq where
  url : Option String
  plans : Option (List String)
  groups : Option (List String)
  verification : Option Bool
deriving DecidableEq, Repr

/-- Structured JSON replies of the site endpoints. -/
inductive SiteResp
  | failure (reason : String)
  | success (site : Site) (groups : List String)
deriving DecidableEq, Repr

/-- JSON body of `POST /setCredentials` (site, plan and authData present,
as every claim about this endpoint assumes; a body without `authData`
would raise before reaching any of the modelled behaviour). -/
structure CredReq where
  site : String
  plan : String
  authData : AuthData
deriving DecidableEq, Repr

structure CredResp where
  message : String
  success : Bool
deriving DecidableEq, Repr

/-- The `schedule` object of a `POST /scanschedule` body.  The crontab
fields are read with `.get` and passed through `str`, so an absent field
becomes the string `"None"`; `remove` is tested with `is not None`. -/
structure SchedFields where
  minute : Option String
  hour : Option String
  dayOfWeek : Option String
  dayOfMonth : Option String
  monthOfYear : Option String
  remove : Option Bool
deriving DecidableEq, Repr

/-- JSON body of `POST /scanschedule` (with `target`, `plan` and the
`schedule` object present, as the handler dereferences all three). -/
structure SchedReq where
  scan_id : Option String
  schedule : SchedFields
  plan : String
  target : String
deriving DecidableEq, Repr

structure SchedResp where
  message : String
  success : Bool
  errors : List String
deriving DecidableEq, Repr

/-! ## `create_site` (sites.py lines 130–165) -/

/-- Embedding of `create_site`.  `newId`, `newToken` stand for the two
`str(uuid.uuid4())` draws and `now` for `datetime.datetime.utcnow()`.
When the body has no `url`, `site.get('url')` is `None` and
`_check_site_url(None)` applies `re.match` to `None`, which raises
`TypeError` — before the `_check_required_fields` test is reached. -/
def create_site (req : SiteReq) (newId newToken : String) (now : Nat)
    (st : Stores) : Except PyError SiteResp × Stores :=
  match req.url with
  | none => (.error .typeError, st)
  | some u =>
    if !check_site_url u then (.ok (.failure "invalid-url"), st)
    else if !req.url.isSome then (.ok (.failure "missing-required-field"), st)
    else if (req.groups.getD []).any (fun g => !check_group_exists st g) then
      (.ok (.failure "unknown-group"), st)
    else if (req.plans.getD []).any (fun p => !check_plan_exists st p) then
      (.ok (.failure "unknown-plan"), st)
    else if (st.sites.find? (siteUrlIs u)).isSome then
      (.ok (.failure "site-already-exists"), st)
    else
      let verification : Verification :=
        if req.verification.getD false then ⟨true, some newToken⟩ else ⟨false, none⟩
      let new_site : Site :=
        { id := newId, url := u, plans := req.plans.getD [], created := now,
          verification := some verification }
      let st₁ := { st with sites := st.sites ++ [new_site] }
      let st₂ := { st₁ with
        groups := (req.groups.getD []).foldl
          (fun gs name =>
            updateFirst (groupNameIs name)
              (fun g => { g with
                sites := if g.sites.contains u then g.sites else g.sites ++ [u] }) gs)
          st₁.groups }
      (.ok (.success new_site (req.groups.getD [])), st₂)

/-! ## `update_site` (sites.py lines 195–241) -/

/-- `$addToSet {'sites': url}` on a group record. -/
def groupAddSite (url : String) (g : Group) : Group :=
  { g with sites := if g.sites.contains url then g.sites else g.sites ++ [url] }

/-- `$pull {'sites': url}` on a group record. -/
def groupPullSite (url : String) (g : Group) : Group :=
  { g with sites := g.sites.filter (· != url) }

/-- The add-new-groups loop of `update_site`: the site URL is added to
every requested group it is not derived as a member of. -/
def groupsAddPhase (wanted derived : List String) (url : String)
    (gs : List Group) : List Group :=
  wanted.foldl
    (fun gs name =>
      if derived.contains name then gs
      else updateFirst (groupNameIs name) (groupAddSite url) gs)
    gs

/-- The remove-old-groups loop of `update_site`: the site URL is pulled
from every derived group that is no longer requested. -/
def groupsRemovePhase (wanted derived : List String) (url : String)
    (gs : List Group) : List Group :=
  derived.foldl
    (fun gs name =>
      if wanted.contains name then gs
      else updateFirst (groupNameIs name) (groupPullSite url) gs)
    gs

/-- `$set {'plans': ps}` on a site record. -/
def sitePlansUpdated (ps : List String) (s : Site) : Site := { s with plans := ps }

/-- `$set {'verification': {...}}` on a site record. -/
def siteVerificationUpdated (v : Verification) (s : Site) : Site :=
  { s with verification := some v }

/-- Embedding of `update_site`.  `newToken` stands for the
`str(uuid.uuid4())` drawn when the verification token is regenerated.
Group reconciliation and the plans update happen before
`new_site['verification']` is read, so a body without `verification`
raises `KeyError` only after those writes. -/
def update_site (req : SiteReq) (site_id : String) (newToken : String)
    (st : Stores) : Except PyError SiteResp × Stores :=
  match st.sites.find? (siteIdIs site_id) with
  | none => (.ok (.failure "no-such-site"), st)
  | some site =>
    let derived := find_groups_for_site st.groups site.url
    if (req.groups.getD []).any (fun g => !check_group_exists st g) then
      (.ok (.failure "unknown-group"), st)
    else if (req.plans.getD []).any (fun p => !check_plan_exists st p) then
      (.ok (.failure "unknown-plan"), st)
    else
      let groups' :=
        match req.groups with
        | none => st.groups
        | some wanted =>
          groupsRemovePhase wanted derived site.url
            (groupsAddPhase wanted derived site.url st.groups)
      let sites₂ :=
        match req.plans with
        | none => st.sites
        | some ps => updateFirst (siteIdIs site_id) (sitePlansUpdated ps) st.sites
      let st₂ : Stores := { st with groups := groups', sites := sites₂ }
      match req.verification with
      | none => (.error .keyError, st₂)
      | some newEnabled =>
        let regen :=
          match site.verification with
          | none => true
          | some ov => ov.enabled != newEnabled
        let st₃ :=
          if regen then
            let sites₃ := updateFirst (siteIdIs site_id)
              (siteVerificationUpdated ⟨newEnabled, some newToken⟩) st₂.sites
            { st₂ with sites := sites₃ }
          else st₂
        let resp : Except PyError SiteResp :=
          match st₃.sites.find? (siteIdIs site_id) with
          | none => .ok (.failure "no-such-site")
          | some site' => .ok (.success site' (find_groups_for_site st₃.groups site'.url))
        (resp, st₃)

/-! ## `get_credInfo` (sites.py lines 273–294) -/

/-- Inserts/overwrites a key in an association list, keeping the original
position on overwrite (Python dict assignment). -/
def assocSet (k : String) (v : α) : List (String × α) → List (String × α)
  | [] => [(k, v)]
  | (k', v') :: rest => if k' = k then (k, v) :: rest else (k', v') :: assocSet k v rest

/-- One entry of the `credInfo` reply. -/
structure CredInfoEntry where
  site : String
  plan : String
  authData : AuthData
deriving DecidableEq, Repr

/-- One loop iteration of `get_credInfo`: fetch (or create) the site's
inner dictionary, then store the masked record under the plan key. -/
def credInfoStep (acc : List (String × List (String × CredInfoEntry)))
    (c : Credential) : List (String × List (String × CredInfoEntry)) :=
  let data : CredInfoEntry :=
    { site := c.site, plan := c.plan,
      authData := { c.authData with password := some "" } }
  let inner := ((acc.find? (fun p => p.1 == c.site)).map Prod.snd).getD []
  assocSet c.site (assocSet c.plan data inner) acc

/-- Embedding of `get_credInfo`: walks every credential record, rebuilds
the nested site → plan → data mapping and forces `password` to the empty
string in every returned record. -/
def get_credInfo (st : Stores) : List (String × List (String × CredInfoEntry)) :=
  st.siteCredentials.foldl credInfoStep []

/-! ## `setCredentials` (sites.py lines 298–345) -/

/-- Embedding of `setCredentials`.  A truthy `authData.remove` deletes
every record of the `(site, plan)` key and reports success.  Otherwise the
record is inserted if absent; if present, the eleven non-password fields
are overwritten unconditionally with the request values and the password
only when the request carries a non-empty one. -/
def credUpdatedAuthData (reqAuth : AuthData) (c : Credential) : Credential :=
  let newAuth : AuthData :=
    { c.authData with
      method := reqAuth.method,
      url := reqAuth.url,
      email := reqAuth.email,
      before_login_element_xpath := reqAuth.before_login_element_xpath,
      login_button_xpath := reqAuth.login_button_xpath,
      login_script := reqAuth.login_script,
      after_login_element_xpath := reqAuth.after_login_element_xpath,
      username := reqAuth.username,
      username_field_xpath := reqAuth.username_field_xpath,
      password_field_xpath := reqAuth.password_field_xpath,
      expected_cookies := reqAuth.expected_cookies,
      password := if truthyStr reqAuth.password then reqAuth.password
                  else c.authData.password }
  { c with authData := newAuth }

def setCredentials (req : CredReq) (st : Stores) : CredResp × Stores :=
  if truthy req.authData.remove then
    let creds' := st.siteCredentials.filter
      (fun c => !credKeyIs req.site req.plan c)
    ({ message := "Removed Site Credentials", success := true },
     { st with siteCredentials := creds' })
  else
    match st.siteCredentials.find? (credKeyIs req.site req.plan) with
    | none =>
      let creds' := st.siteCredentials ++
        [{ site := req.site, plan := req.plan, authData := req.authData }]
      ({ message := "Added Site Credentials", success := true },
       { st with siteCredentials := creds' })
    | some _ =>
      let creds' := updateFirst (credKeyIs req.site req.plan)
        (credUpdatedAuthData req.authData) st.siteCredentials
      ({ message := "Added Site Credentials", success := true },
       { st with siteCredentials := creds' })

/-! ## `scanschedule` (sites.py lines 348–409) -/

/-- Crontab dictionary built by `scanschedule` from the request. -/
def reqCrontab (req : SchedReq) : Crontab :=
  { minute := pyStr req.schedule.minute,
    hour := pyStr req.schedule.hour,
    day_of_week := pyStr req.schedule.dayOfWeek,
    day_of_month := pyStr req.schedule.dayOfMonth,
    month_of_year := pyStr req.schedule.monthOfYear }

/-- The `$set` applied by `scanschedule` on an existing record. -/
def schedUpdatedRecord (req : SchedReq) (r : Schedule) : Schedule :=
  { r with crontab := reqCrontab req, enabled := !req.schedule.remove.isSome }

/-- Embedding of `scanschedule`.  Note that the removal test is
`schedule.get('remove') is not None`: a present `remove`, whatever its
value, disables the schedule.  Validation failures return before any store
access; otherwise the record is inserted, or its `crontab` and `enabled`
fields updated, keyed by `(site, plan)`. -/
def scanschedule (req : SchedReq) (st : Stores) : SchedResp × Stores :=
  let removeSite := req.schedule.remove
  let enabled := !removeSite.isSome
  let message :=
    if removeSite.isSome then "Removed Schedule for: " ++ req.target
    else "Scheduled Scan successfully set for site: " ++ req.target
  let crontab := reqCrontab req
  let crontab_errors := check_cron crontab
  if crontab_errors != [] then
    ({ message := "Error in crontab values", success := false, errors := crontab_errors }, st)
  else
    let data : Schedule :=
      { cls := "PeriodicTask",
        task := "minion.backend.tasks.run_scheduled_scan",
        args := [req.target, req.plan],
        site := req.target,
        queue := "scanschedule",
        routing_key := "scanschedule",
        exchange := "",
        plan := req.plan,
        name := req.target ++ ":" ++ req.plan,
        enabled := enabled,
        crontab := crontab }
    match st.scanschedules.find? (schedKeyIs req.target req.plan) with
    | none =>
      ({ message := message, success := true, errors := [] },
       { st with scanschedules := st.scanschedules ++ [data] })
    | some _ =>
      let scheds' := updateFirst (schedKeyIs req.target req.plan)
        (schedUpdatedRecord req) st.scanschedules
      ({ message := message, success := true, errors := [] },
       { st with scanschedules := scheds' })

/-! ## Generic lemmas about the store primitives -/

theorem mem_concatMap {f : α → List β} {b : β} :
    ∀ {l : List α}, (b ∈ concatMap f l ↔ ∃ a ∈ l, b ∈ f a)
  | [] => by simp [concatMap]
  | x :: xs => by
    simp [concatMap, List.mem_append, mem_concatMap (l := xs)]

theorem length_updateFirst (p : α → Bool) (f : α → α) :
    ∀ l : List α, (updateFirst p f l).length = l.length
  | [] => rfl
  | x :: xs => by
    by_cases h : p x <;> simp [updateFirst, h, length_updateFirst p f xs]

theorem map_updateFirst (proj : α → β) (p : α → Bool) (f : α → α)
    (h : ∀ x, p x = true → proj (f x) = proj x) :
    ∀ l : List α, (updateFirst p f l).map proj = l.map proj
  | [] => rfl
  | x :: xs => by
    by_cases hx : p x <;>
      simp [updateFirst, hx, map_updateFirst proj p f h xs, h x]

theorem find?_updateFirst (p : α → Bool) (f : α → α)
    (h : ∀ x, p (f x) = p x) :
    ∀ l : List α, (updateFirst p f l).find? p = (l.find? p).map f
  | [] => rfl
  | x :: xs => by
    by_cases hx : p x
    · simp [updateFirst, hx, List.find?_cons_of_pos, h x]
    · simp [updateFirst, hx, List.find?_cons_of_neg, find?_updateFirst p f h xs]

theorem updateFirst_of_forall_not (p : α → Bool) (f : α → α) :
    ∀ l : List α, (∀ x ∈ l, p x = false) → updateFirst p f l = l
  | [], _ => rfl
  | x :: xs, h => by
    have hx := h x (by simp)
    simp [updateFirst, hx, updateFirst_of_forall_not p f xs
      (fun y hy => h y (by simp [hy]))]

theorem all_imp_any_not {l : List α} {p : α → Bool} (h : l.all p = true) :
    (l.any fun x => !p x) = false := by
  simp only [List.all_eq_true] at h
  simp only [List.any_eq_false]
  intro x hx
  simp [h x hx]

/-- Concrete empty state used by several witnesses. -/
def emptyStores : Stores := ⟨[], [], [], [], []⟩

/-! ## Claim C3 — `create_site` on a body without `url`

The claim says a structured `missing-required-field` reply is returned.
The code instead evaluates `_check_site_url(site.get('url'))` first, and
`re.match(None)` raises `TypeError`; the `_check_required_fields` test on
line 137 — the one the claim describes — is unreachable for a missing
`url`.  The store is not touched. -/

/-- For every create-site request without a `url` field, the handler
raises `TypeError` (it does not return a structured
`missing-required-field` reply), and the stores are unchanged. -/
theorem create_site_missing_url_raises (req : SiteReq) (newId newToken : String)
    (now : Nat) (st : Stores) (h : req.url = none) :
    create_site req newId newToken now st = (.error .typeError, st) := by
  simp [create_site, h]

theorem create_site_missing_url_raises_witness :
    create_site ⟨none, none, none, none⟩ "id-1" "tok-1" 0 emptyStores =
      (.error .typeError, emptyStores) :=
  create_site_missing_url_raises ⟨none, none, none, none⟩ "id-1" "tok-1" 0 emptyStores rfl

/-! ## Claim C10 — `update_site` on a body without `verification` -/

/-- For every update-site request on an existing site whose groups and
plans validate but whose body lacks the `verification` key, the handler
raises `KeyError` (`new_site['verification']`) instead of returning a
structured reply — even when the request only updates `plans` or
`groups`. -/
theorem update_site_without_verification_raises (req : SiteReq) (site_id tok : String)
    (st : Stores) (site : Site)
    (hfind : st.sites.find? (siteIdIs site_id) = some site)
    (hg : (req.groups.getD []).all (check_group_exists st) = true)
    (hp : (req.plans.getD []).all (check_plan_exists st) = true)
    (hv : req.verification = none) :
    (update_site req site_id tok st).1 = .error .keyError := by
  simp [update_site, hfind, all_imp_any_not hg, all_imp_any_not hp, hv]

theorem update_site_without_verification_raises_witness :
    (update_site ⟨none, some ["basic"], some ["g1"], none⟩ "id-1" "tok-1"
      ⟨[⟨"id-1", "http://a.b", [], 0, none⟩], [⟨"g1", []⟩], ["basic"], [], []⟩).1 =
      .error .keyError :=
  update_site_without_verification_raises ⟨none, some ["basic"], some ["g1"], none⟩
    "id-1" "tok-1"
    ⟨[⟨"id-1", "http://a.b", [], 0, none⟩], [⟨"g1", []⟩], ["basic"], [], []⟩
    ⟨"id-1", "http://a.b", [], 0, none⟩ (by decide) (by decide) (by decide) rfl

/-! ## Claim C2 — `remove` flag versus stored `enabled`

The claim says `enabled` becomes false exactly when `remove` is true.  The
code tests `schedule.get('remove') is not None`, so a present-but-false
`remove` also disables the schedule.  The amended statement: `enabled` is
false exactly when `remove` is present, whatever its value. -/

theorem find?_append_left_none (p : α → Bool) :
    ∀ l₁ l₂ : List α, l₁.find? p = none → (l₁ ++ l₂).find? p = l₂.find? p
  | [], _, _ => rfl
  | x :: xs, l₂, h => by
    by_cases hx : p x
    · simp [List.find?_cons_of_pos, hx] at h
    · simp only [List.find?_cons_of_neg _ hx] at h
      simp [List.find?_cons_of_neg _ hx, find?_append_left_none p xs l₂ h]

/-- Concrete schedule request whose `remove` flag is present and false. -/
def removeFalseReq : SchedReq :=
  ⟨none, ⟨some "0", some "0", some "*", some "1", some "1", some false⟩,
   "basic", "http://a.b"⟩

/-- Counterexample to claim C2 as stated: a request with `remove: false`
(present but false) and valid crontab fields stores `enabled = false`,
where the claim demands `enabled = true`. -/
theorem scanschedule_remove_false_disables :
    removeFalseReq.schedule.remove = some false ∧
    ((scanschedule removeFalseReq emptyStores).2.scanschedules.map Schedule.enabled) =
      [false] := by
  constructor
  · rfl
  · decide

/-- Amended claim C2: for every /scanschedule request whose crontab fields
validate, the stored `enabled` flag for the `(site, plan)` schedule is
false exactly when the request carries the `remove` key (whatever its
value), and true when `remove` is absent. -/
theorem scanschedule_enabled_iff_remove_absent (req : SchedReq) (st : Stores)
    (h : check_cron (reqCrontab req) = []) :
    (((scanschedule req st).2).scanschedules.find?
        (schedKeyIs req.target req.plan)).map Schedule.enabled =
      some req.schedule.remove.isNone := by
  have hiso : (!req.schedule.remove.isSome) = req.schedule.remove.isNone := by
    cases req.schedule.remove <;> rfl
  unfold scanschedule
  simp only [h, bne_self_eq_false, Bool.false_eq_true, if_false]
  cases hfind : st.scanschedules.find? (schedKeyIs req.target req.plan) with
  | none =>
    simp only [hfind]
    rw [find?_append_left_none _ _ _ hfind]
    simp [schedKeyIs, hiso]
  | some r =>
    simp only [hfind]
    rw [find?_updateFirst (schedKeyIs req.target req.plan)
        (schedUpdatedRecord req) (fun x => rfl), hfind]
    simp [schedUpdatedRecord, hiso]

theorem scanschedule_enabled_iff_remove_absent_witness :
    check_cron (reqCrontab removeFalseReq) = [] ∧
    (((scanschedule removeFalseReq emptyStores).2).scanschedules.find?
        (schedKeyIs removeFalseReq.target removeFalseReq.plan)).map Schedule.enabled =
      some removeFalseReq.schedule.remove.isNone :=
  ⟨by decide, scanschedule_enabled_iff_remove_absent removeFalseReq emptyStores (by decide)⟩

/-! ## Claim C4 — independent crontab validation, no partial writes -/

/-- Concrete request with invalid `minute` and `month_of_year`. -/
def badCronReq : SchedReq :=
  ⟨none, ⟨some "99", some "5", some "*", some "15", some "13", none⟩,
   "basic", "http://a.b"⟩

/-- Claim C4: the five crontab fields are validated independently and
without short-circuiting — each field's error string is in the error list
iff that field fails, whatever the other fields contain; a request with a
non-empty error list (removal requests included) gets `success = false`
carrying exactly that list and leaves the stores completely unchanged; and
the claim's example (`minute "99"`, `month_of_year "13"`, others valid)
yields exactly the two corresponding errors. -/
theorem check_cron_independent_and_no_persist :
    (∀ c : Crontab,
      (("Error in Value: Minute" ∈ check_cron c) ↔ cronParseOk 60 0 c.minute = false) ∧
      (("Error in Value: Hour" ∈ check_cron c) ↔ cronParseOk 24 0 c.hour = false) ∧
      (("Error in Value: Day of Week" ∈ check_cron c) ↔
        cronParseOk 7 0 c.day_of_week = false) ∧
      (("Error in Value: Day of Month" ∈ check_cron c) ↔
        cronParseOk 31 1 c.day_of_month = false) ∧
      (("Error in Value: Month of Year" ∈ check_cron c) ↔
        cronParseOk 12 1 c.month_of_year = false)) ∧
    (∀ (req : SchedReq) (st : Stores), check_cron (reqCrontab req) ≠ [] →
      (scanschedule req st).1 =
        ⟨"Error in crontab values", false, check_cron (reqCrontab req)⟩ ∧
      (scanschedule req st).2 = st) ∧
    check_cron ⟨"99", "5", "*", "15", "13"⟩ =
      ["Error in Value: Minute", "Error in Value: Month of Year"] := by
  refine ⟨?_, ?_, by decide⟩
  · intro c
    unfold check_cron
    cases h1 : cronParseOk 60 0 c.minute <;>
    cases h2 : cronParseOk 24 0 c.hour <;>
    cases h3 : cronParseOk 7 0 c.day_of_week <;>
    cases h4 : cronParseOk 31 1 c.day_of_month <;>
    cases h5 : cronParseOk 12 1 c.month_of_year <;>
      refine ⟨?_, ?_, ?_, ?_, ?_⟩ <;> simp
  · intro req st hne
    have hb : (check_cron (reqCrontab req) != []) = true := by
      simpa [bne_iff_ne] using hne
    unfold scanschedule
    simp [hb]

theorem check_cron_independent_and_no_persist_witness :
    check_cron (reqCrontab badCronReq) ≠ [] ∧
    (scanschedule badCronReq emptyStores).2 = emptyStores :=
  ⟨by decide,
   (check_cron_independent_and_no_persist.2.1 badCronReq emptyStores (by decide)).2⟩

/-! ## Claim C6 — schedule updates only touch `crontab`/`enabled`; no
record is ever deleted -/

/-- Projection of a schedule record onto the fields set at creation
(everything except `crontab` and `enabled`). -/
def schedFrame (r : Schedule) :
    String × String × List String × String × String × String × String × String × String :=
  (r.cls, r.task, r.args, r.site, r.queue, r.routing_key, r.exchange, r.plan, r.name)

/-- The `(site, plan)` key of a schedule record. -/
def schedKey (r : Schedule) : String × String := (r.site, r.plan)

/-- Claim C6: a successful /scanschedule request on a key that already has
a stored record modifies only `crontab` and `enabled` (every record's
creation-time fields survive, position included), and no /scanschedule
request — successful or not — ever removes a stored `(site, plan)` key. -/
theorem scanschedule_update_frame :
    (∀ (req : SchedReq) (st : Stores) (r : Schedule),
      st.scanschedules.find? (schedKeyIs req.target req.plan) = some r →
      check_cron (reqCrontab req) = [] →
      (scanschedule req st).2.scanschedules.map schedFrame =
        st.scanschedules.map schedFrame) ∧
    (∀ (req : SchedReq) (st : Stores),
      st.scanschedules.map schedKey ⊆ (scanschedule req st).2.scanschedules.map schedKey) := by
  constructor
  · intro req st r hfind hok
    unfold scanschedule
    simp only [hok, bne_self_eq_false, Bool.false_eq_true, if_false, hfind]
    exact map_updateFirst schedFrame (schedKeyIs req.target req.plan)
      (schedUpdatedRecord req) (fun x _ => rfl) _
  · intro req st
    unfold scanschedule
    by_cases hok : (check_cron (reqCrontab req) != []) = true
    · simp [hok]
    · simp only [Bool.not_eq_true] at hok
      simp only [hok, Bool.false_eq_true, if_false]
      cases hfind : st.scanschedules.find? (schedKeyIs req.target req.plan) with
      | none =>
        simp only [hfind, List.map_append]
        exact List.subset_append_left _ _
      | some r =>
        simp only [hfind]
        rw [map_updateFirst schedKey (schedKeyIs req.target req.plan)
          (schedUpdatedRecord req) (fun x _ => rfl)]
        exact List.Subset.refl _

/-- Fixtures for the C6 witness. -/
def schedRec0 : Schedule :=
  ⟨"PeriodicTask", "minion.backend.tasks.run_scheduled_scan",
   ["http://a.b", "basic"], "http://a.b", "scanschedule", "scanschedule", "",
   "basic", "http://a.b:basic", true, ⟨"0", "0", "*", "1", "1"⟩⟩

def schedStore0 : Stores := ⟨[], [], [], [schedRec0], []⟩

def schedReq2 : SchedReq :=
  ⟨none, ⟨some "5", some "6", some "*", some "2", some "2", some true⟩,
   "basic", "http://a.b"⟩

theorem scanschedule_update_frame_witness :
    schedStore0.scanschedules.find? (schedKeyIs schedReq2.target schedReq2.plan) =
      some schedRec0 ∧
    (scanschedule schedReq2 schedStore0).2.scanschedules.map schedFrame =
      schedStore0.scanschedules.map schedFrame ∧
    schedStore0.scanschedules.map schedKey ⊆
      (scanschedule schedReq2 schedStore0).2.scanschedules.map schedKey :=
  ⟨by decide,
   scanschedule_update_frame.1 schedReq2 schedStore0 schedRec0 (by decide) (by decide),
   scanschedule_update_frame.2 schedReq2 schedStore0⟩

/-! ## Claim C7 — credential update and removal -/

theorem find?_filter_not (p : α → Bool) (l : List α) :
    (l.filter fun x => !p x).find? p = none := by
  apply List.find?_eq_none.mpr
  intro x hx
  simp only [List.mem_filter, Bool.not_eq_true'] at hx
  simp [hx.2]

/-- Claim C7: updating an existing `(site, plan)` credential without a
truthy `remove` overwrites every non-password `authData` field with the
request value, replaces the password exactly when the request carries a
non-empty one and preserves it otherwise (the stored `remove` key is also
untouched); a truthy `remove` deletes the record and reports success, and
a repeated removal of the now-absent record still reports success. -/
theorem setCredentials_update_and_remove :
    (∀ (req : CredReq) (st : Stores) (c₀ : Credential),
      truthy req.authData.remove = false →
      st.siteCredentials.find? (credKeyIs req.site req.plan) = some c₀ →
      (setCredentials req st).1.success = true ∧
      ((setCredentials req st).2.siteCredentials.find?
          (credKeyIs req.site req.plan)).map Credential.authData =
        some { method := req.authData.method,
               url := req.authData.url,
               email := req.authData.email,
               before_login_element_xpath := req.authData.before_login_element_xpath,
               login_button_xpath := req.authData.login_button_xpath,
               login_script := req.authData.login_script,
               after_login_element_xpath := req.authData.after_login_element_xpath,
               username := req.authData.username,
               username_field_xpath := req.authData.username_field_xpath,
               password_field_xpath := req.authData.password_field_xpath,
               expected_cookies := req.authData.expected_cookies,
               password := if truthyStr req.authData.password then req.authData.password
                           else c₀.authData.password,
               remove := c₀.authData.remove }) ∧
    (∀ (req : CredReq) (st : Stores),
      truthy req.authData.remove = true →
      (setCredentials req st).1 = ⟨"Removed Site Credentials", true⟩ ∧
      (setCredentials req st).2.siteCredentials.find?
        (credKeyIs req.site req.plan) = none ∧
      (setCredentials req (setCredentials req st).2).1.success = true) := by
  constructor
  · intro req st c₀ hrem hfind
    constructor
    · simp [setCredentials, hrem, hfind]
    · unfold setCredentials
      simp only [hrem, Bool.false_eq_true, if_false, hfind]
      rw [find?_updateFirst (credKeyIs req.site req.plan)
        (credUpdatedAuthData req.authData) (fun x => rfl), hfind]
      simp [credUpdatedAuthData]
  · intro req st hrem
    refine ⟨by simp [setCredentials, hrem], ?_, by simp [setCredentials, hrem]⟩
    simp only [setCredentials, hrem, if_true]
    exact find?_filter_not _ _

/-- Fixtures for the C7 witness: an existing credential with a stored
password, updated by a request whose password is empty. -/
def storedCred : Credential :=
  ⟨"http://a.b", "basic",
   ⟨some "form", some "http://a.b/login", some "x@y.z", none, none, none, none,
    some "alice", none, none, none, some "hunter2", none⟩⟩

def credStore0 : Stores := ⟨[], [], [], [], [storedCred]⟩

def credEditReq : CredReq :=
  ⟨"http://a.b", "basic",
   ⟨some "form", some "http://a.b/login2", some "x@y.z", none, none, none, none,
    some "bob", none, none, none, some "", none⟩⟩

def credRemoveReq : CredReq :=
  ⟨"http://a.b", "basic",
   ⟨none, none, none, none, none, none, none, none, none, none, none, none, some true⟩⟩

theorem setCredentials_update_and_remove_witness :
    ((setCredentials credEditReq credStore0).2.siteCredentials.find?
        (credKeyIs credEditReq.site credEditReq.plan)).map Credential.authData =
      some ⟨some "form", some "http://a.b/login2", some "x@y.z", none, none, none, none,
        some "bob", none, none, none, some "hunter2", none⟩ ∧
    (setCredentials credRemoveReq credStore0).2.siteCredentials.find?
      (credKeyIs credRemoveReq.site credRemoveReq.plan) = none ∧
    (setCredentials credRemoveReq (setCredentials credRemoveReq credStore0).2).1.success =
      true :=
  ⟨(setCredentials_update_and_remove.1 credEditReq credStore0 storedCred rfl rfl).2,
   (setCredentials_update_and_remove.2 credRemoveReq credStore0 rfl).2.1,
   (setCredentials_update_and_remove.2 credRemoveReq credStore0 rfl).2.2⟩

/-! ## Claim C8 — the masked credential listing never exposes a password -/

theorem mem_assocSet {k : String} {v : α} :
    ∀ {l : List (String × α)} {x : String × α}, x ∈ assocSet k v l → x = (k, v) ∨ x ∈ l := by
  intro l
  induction l with
  | nil =>
    intro x h
    simp only [assocSet, List.mem_singleton] at h
    exact Or.inl h
  | cons p rest ih =>
    obtain ⟨k', v'⟩ := p
    intro x h
    by_cases hk : k' = k
    · simp only [assocSet, if_pos hk, List.mem_cons] at h
      rcases h with h | h
      · exact Or.inl h
      · exact Or.inr (List.mem_cons_of_mem _ h)
    · simp only [assocSet, if_neg hk, List.mem_cons] at h
      rcases h with h | h
      · exact Or.inr (by simp [h])
      · rcases ih h with h' | h'
        · exact Or.inl h'
        · exact Or.inr (List.mem_cons_of_mem _ h')

/-- The invariant "every listed record has an empty password" is preserved
by each loop iteration of `get_credInfo`. -/
theorem credInfo_fold_invariant :
    ∀ (l : List Credential) (acc : List (String × List (String × CredInfoEntry))),
      (∀ pr ∈ acc, ∀ pe ∈ pr.2, pe.2.authData.password = some "") →
      ∀ pr ∈ l.foldl credInfoStep acc, ∀ pe ∈ pr.2, pe.2.authData.password = some ""
  | [], acc, hacc => hacc
  | c :: cs, acc, hacc => by
    refine credInfo_fold_invariant cs (credInfoStep acc c) ?_
    intro pr hpr pe hpe
    rcases mem_assocSet hpr with hpr' | hpr'
    · subst hpr'
      rcases mem_assocSet hpe with hpe' | hpe'
      · subst hpe'
        rfl
      · rcases hfind : acc.find? (fun p => p.1 == c.site) with _ | pr₀
        · simp only [credInfoStep, hfind, Option.map_none, Option.getD_none] at hpe'
          simp at hpe'
        · simp only [credInfoStep, hfind, Option.map_some, Option.getD_some] at hpe'
          exact hacc pr₀ (List.mem_of_find?_eq_some hfind) pe hpe'
    · exact hacc pr hpr' pe hpe

/-- Claim C8: whatever the credential store contains, every record in the
/credInfo reply carries `password = ""`; no stored password value reaches
this read path. -/
theorem get_credInfo_masks_passwords (st : Stores) :
    ∀ pr ∈ get_credInfo st, ∀ pe ∈ pr.2, pe.2.authData.password = some "" :=
  credInfo_fold_invariant st.siteCredentials [] (by intro pr h; simp at h)

/-- The masked entry produced for `storedCred` (password `"hunter2"`). -/
def maskedEntry0 : CredInfoEntry :=
  ⟨"http://a.b", "basic",
   ⟨some "form", some "http://a.b/login", some "x@y.z", none, none, none, none,
    some "alice", none, none, none, some "", none⟩⟩

theorem get_credInfo_masks_passwords_witness :
    maskedEntry0.authData.password = some "" :=
  get_credInfo_masks_passwords credStore0 ("http://a.b", [("basic", maskedEntry0)])
    (by decide) ("basic", maskedEntry0) (by decide)

/-! ## Claim C9 — verification reconciliation in `update_site` -/

/-- Claim C9: on a successful update with a `verification` object, a fresh
token is generated and `enabled` set to the requested value whenever the
stored record has no verification or its `enabled` flag differs from the
request (even when disabling); when the stored `enabled` flag equals the
requested one, the stored verification (token included) is untouched. -/
theorem update_site_verification_reconciliation (req : SiteReq)
    (site_id tok : String) (st : Stores) (site : Site) (en : Bool)
    (hfind : st.sites.find? (siteIdIs site_id) = some site)
    (hg : (req.groups.getD []).all (check_group_exists st) = true)
    (hp : (req.plans.getD []).all (check_plan_exists st) = true)
    (hv : req.verification = some en) :
    (site.verification.map Verification.enabled ≠ some en →
      ((update_site req site_id tok st).2.sites.find? (siteIdIs site_id)).map
          Site.verification = some (some ⟨en, some tok⟩)) ∧
    (site.verification.map Verification.enabled = some en →
      ((update_site req site_id tok st).2.sites.find? (siteIdIs site_id)).map
          Site.verification = some site.verification) := by
  have hpu : ∀ ps x, siteIdIs site_id (sitePlansUpdated ps x) = siteIdIs site_id x :=
    fun _ _ => rfl
  have hvu : ∀ x, siteIdIs site_id
      (siteVerificationUpdated ⟨en, some tok⟩ x) = siteIdIs site_id x :=
    fun _ => rfl
  unfold update_site
  simp only [hfind, all_imp_any_not hg, all_imp_any_not hp, Bool.false_eq_true,
    if_false, hv]
  cases hver : site.verification with
  | none =>
    constructor
    · intro _
      cases hplans : req.plans with
      | none =>
        simp only [if_true,
          find?_updateFirst (siteIdIs site_id)
            (siteVerificationUpdated ⟨en, some tok⟩) hvu, hfind]
        rfl
      | some ps =>
        simp only [if_true,
          find?_updateFirst (siteIdIs site_id)
            (siteVerificationUpdated ⟨en, some tok⟩) hvu,
          find?_updateFirst (siteIdIs site_id) (sitePlansUpdated ps) (hpu ps), hfind]
        rfl
    · intro h
      simp at h
  | some ov =>
    by_cases hb : ov.enabled = en
    · have hregen : (ov.enabled != en) = false := by simp [hb]
      simp only [hregen, Bool.false_eq_true, if_false]
      constructor
      · intro h
        simp [hb] at h
      · intro _
        cases hplans : req.plans with
        | none => simp [hfind, hver]
        | some ps =>
          simp only [find?_updateFirst (siteIdIs site_id)
            (sitePlansUpdated ps) (hpu ps), hfind]
          simp [sitePlansUpdated, hver]
    · have hregen : (ov.enabled != en) = true := by simp [hb]
      simp only [hregen, if_true]
      constructor
      · intro _
        cases hplans : req.plans with
        | none =>
          simp only [find?_updateFirst (siteIdIs site_id)
            (siteVerificationUpdated ⟨en, some tok⟩) hvu, hfind]
          rfl
        | some ps =>
          simp only [find?_updateFirst (siteIdIs site_id)
              (siteVerificationUpdated ⟨en, some tok⟩) hvu,
            find?_updateFirst (siteIdIs site_id) (sitePlansUpdated ps) (hpu ps), hfind]
          rfl
      · intro h
        simp at h
        exact absurd h hb

/-- Fixtures for the C9 witness: the stored site has verification disabled
and the request enables it, so the token must be regenerated. -/
def verifSite : Site :=
  ⟨"id-9", "http://a.b", [], 0, some ⟨false, some "old-token"⟩⟩

def verifStore : Stores := ⟨[verifSite], [], [], [], []⟩

def verifReq : SiteReq := ⟨none, none, none, some true⟩

theorem update_site_verification_reconciliation_witness :
    ((update_site verifReq "id-9" "fresh-token" verifStore).2.sites.find?
        (siteIdIs "id-9")).map Site.verification =
      some (some ⟨true, some "fresh-token"⟩) :=
  (update_site_verification_reconciliation verifReq "id-9" "fresh-token" verifStore
      verifSite true (by decide) (by decide) (by decide) rfl).1 (by decide)

/-! ## Claim C5 — group reconciliation in `update_site`

Under the data-model invariant that group names are unique, each
single-document update of the two reconciliation loops hits exactly the
record bearing the looped name, so both loops act on every record
independently; the loops are rewritten as `List.map` and the membership
result follows record by record. -/

theorem contains_iff {l : List String} {a : String} : l.contains a = true ↔ a ∈ l := by
  simp

theorem groupAddSite_name (url : String) (g : Group) :
    (groupAddSite url g).name = g.name := rfl

theorem groupPullSite_name (url : String) (g : Group) :
    (groupPullSite url g).name = g.name := rfl

theorem groupAddSite_idem (url : String) (g : Group) :
    groupAddSite url (groupAddSite url g) = groupAddSite url g := by
  by_cases h : url ∈ g.sites <;> simp [groupAddSite, h]

theorem groupPullSite_idem (url : String) (g : Group) :
    groupPullSite url (groupPullSite url g) = groupPullSite url g := by
  simp [groupPullSite, List.filter_filter]

theorem map_keyUpd_id (n : String) (f : Group → Group) :
    ∀ gs : List Group, (∀ g ∈ gs, g.name ≠ n) →
      gs.map (fun g => if g.name = n then f g else g) = gs
  | [], _ => rfl
  | g :: gs, h => by
    have hg := h g (by simp)
    simp only [List.map_cons, if_neg hg,
      map_keyUpd_id n f gs (fun y hy => h y (by simp [hy]))]

theorem updateFirst_name_eq_map (n : String) (f : Group → Group) :
    ∀ gs : List Group, (gs.map Group.name).Nodup →
      updateFirst (groupNameIs n) f gs =
        gs.map (fun g => if g.name = n then f g else g)
  | [], _ => rfl
  | g :: gs, hnd => by
    simp only [List.map_cons, List.nodup_cons, List.mem_map] at hnd
    by_cases hg : g.name = n
    · have hb : groupNameIs n g = true := by simp [groupNameIs, hg]
      simp only [updateFirst, hb, if_true, List.map_cons, if_pos hg]
      rw [map_keyUpd_id n f gs]
      intro y hy hyn
      exact hnd.1 ⟨y, hy, by rw [hyn, hg]⟩
    · have hb : groupNameIs n g = false := by simp [groupNameIs, hg]
      simp only [updateFirst, hb, Bool.false_eq_true, if_false, List.map_cons, if_neg hg]
      rw [updateFirst_name_eq_map n f gs hnd.2]

/-- Under unique group names, a loop of conditional single-document
updates over a list of names acts independently on every record: it is the
map that applies `f` to exactly the records whose name is looped over and
not kept back. -/
theorem phase_eq_map (keep : String → Bool) (f : Group → Group)
    (hf : ∀ g, (f g).name = g.name) (hidem : ∀ g, f (f g) = f g) :
    ∀ (names : List String) (gs : List Group), (gs.map Group.name).Nodup →
      names.foldl
        (fun gs n => if keep n then gs else updateFirst (groupNameIs n) f gs) gs =
      gs.map (fun g => if names.contains g.name && !keep g.name then f g else g)
  | [], gs, _ => by
    have h : ∀ g ∈ gs,
        (if ([] : List String).contains g.name && !keep g.name then f g else g) = g :=
      fun g _ => rfl
    rw [List.foldl_nil, List.map_congr_left h, List.map_id']
  | n :: names, gs, hnd => by
    rw [List.foldl_cons]
    by_cases hk : keep n = true
    · rw [if_pos hk, phase_eq_map keep f hf hidem names gs hnd]
      apply List.map_congr_left
      intro g _
      by_cases hgn : g.name = n
      · rw [hgn]
        simp [hk]
      · simp [List.contains_cons, hgn]
    · rw [if_neg hk, updateFirst_name_eq_map n f gs hnd]
      have hnd' : ((gs.map fun g => if g.name = n then f g else g).map Group.name).Nodup := by
        rw [List.map_map]
        have heq : (Group.name ∘ fun g => if g.name = n then f g else g) = Group.name := by
          funext g
          by_cases h : g.name = n <;> simp [Function.comp, h, hf]
        rw [heq]
        exact hnd
      rw [phase_eq_map keep f hf hidem names _ hnd', List.map_map]
      apply List.map_congr_left
      intro g _
      by_cases hgn : g.name = n
      · simp only [Function.comp, if_pos hgn, hf, hgn]
        have hc : ((n :: names).contains n) = true := by simp
        rw [hc]
        simp only [Bool.not_eq_true] at hk
        simp only [hk, Bool.not_false, Bool.true_and, Bool.and_true, if_true]
        cases hcn : names.contains n <;> simp [hidem]
      · simp only [Function.comp, if_neg hgn]
        simp [List.contains_cons, hgn]

/-- What the add loop does to one record, under unique names. -/
def groupAddIf (wanted derived : List String) (url : String) (g : Group) : Group :=
  if wanted.contains g.name && !derived.contains g.name then groupAddSite url g else g

/-- What the remove loop does to one record, under unique names. -/
def groupPullIf (wanted derived : List String) (url : String) (g : Group) : Group :=
  if derived.contains g.name && !wanted.contains g.name then groupPullSite url g else g

theorem groupsAddPhase_eq_map (wanted derived : List String) (url : String)
    (gs : List Group) (hnd : (gs.map Group.name).Nodup) :
    groupsAddPhase wanted derived url gs = gs.map (groupAddIf wanted derived url) :=
  phase_eq_map (fun n => derived.contains n) (groupAddSite url) (fun _ => rfl)
    (groupAddSite_idem url) wanted gs hnd

theorem groupsRemovePhase_eq_map (wanted derived : List String) (url : String)
    (gs : List Group) (hnd : (gs.map Group.name).Nodup) :
    groupsRemovePhase wanted derived url gs = gs.map (groupPullIf wanted derived url) :=
  phase_eq_map (fun n => wanted.contains n) (groupPullSite url) (fun _ => rfl)
    (groupPullSite_idem url) derived gs hnd

theorem groupAddIf_name (wanted derived : List String) (url : String) (g : Group) :
    (groupAddIf wanted derived url g).name = g.name := by
  unfold groupAddIf
  split <;> rfl

/-- One record after both loops keeps its name. -/
theorem groupReconcile_name (wanted derived : List String) (url : String) (g : Group) :
    (groupPullIf wanted derived url (groupAddIf wanted derived url g)).name = g.name := by
  unfold groupPullIf groupAddIf
  split <;> split <;> rfl

/-- One record after both loops contains the site URL exactly when its name
is in the requested list (assuming `derived` correctly reflects current
membership for this record). -/
theorem not_mem_of_contains_false {l : List String} {a : String}
    (h : l.contains a = false) : a ∉ l := by
  intro hmem
  rw [contains_iff.mpr hmem] at h
  cases h

theorem groupReconcile_contains (wanted derived : List String) (url : String)
    (g : Group) (hcon : derived.contains g.name = g.sites.contains url) :
    (groupPullIf wanted derived url
        (groupAddIf wanted derived url g)).sites.contains url =
      wanted.contains g.name := by
  unfold groupPullIf groupAddIf
  cases hw : wanted.contains g.name <;> cases hc : g.sites.contains url <;>
    rw [hc] at hcon
  · have hwm := not_mem_of_contains_false hw
    have hcm := not_mem_of_contains_false hc
    have hdm := not_mem_of_contains_false hcon
    simp [groupAddSite, groupPullSite, hwm, hcm, hdm]
  · have hwm := not_mem_of_contains_false hw
    have hcm := contains_iff.mp hc
    have hdm := contains_iff.mp hcon
    simp [groupAddSite, groupPullSite, hwm, hcm, hdm]
  · have hwm := contains_iff.mp hw
    have hcm := not_mem_of_contains_false hc
    have hdm := not_mem_of_contains_false hcon
    simp [groupAddSite, groupPullSite, hwm, hcm, hdm]
  · have hwm := contains_iff.mp hw
    have hcm := contains_iff.mp hc
    have hdm := contains_iff.mp hcon
    simp [groupAddSite, groupPullSite, hwm, hcm, hdm]

/-- A record that is requested and already a member, or neither requested
nor a member, is not written at all. -/
theorem groupReconcile_id (wanted derived : List String) (url : String) (g : Group)
    (hcon : derived.contains g.name = g.sites.contains url)
    (hwc : wanted.contains g.name = g.sites.contains url) :
    groupPullIf wanted derived url (groupAddIf wanted derived url g) = g := by
  unfold groupPullIf groupAddIf
  cases hc : g.sites.contains url <;> rw [hc] at hcon hwc
  · have hwm := not_mem_of_contains_false hwc
    have hdm := not_mem_of_contains_false hcon
    simp [hwm, hdm]
  · have hwm := contains_iff.mp hwc
    have hdm := contains_iff.mp hcon
    simp [hwm, hdm]

theorem mem_find_groups_iff {gs : List Group} {url g : String} :
    g ∈ find_groups_for_site gs url ↔
      ∃ gr ∈ gs, gr.name = g ∧ gr.sites.contains url = true := by
  simp only [find_groups_for_site, List.mem_map, List.mem_filter]
  constructor
  · rintro ⟨gr, ⟨hmem, hcont⟩, hname⟩
    exact ⟨gr, hmem, hname, hcont⟩
  · rintro ⟨gr, hmem, hname, hcont⟩
    exact ⟨gr, ⟨hmem, hcont⟩, hname⟩

theorem derived_contains_iff {gs : List Group} (hnd : (gs.map Group.name).Nodup)
    {g : Group} (hg : g ∈ gs) (url : String) :
    (find_groups_for_site gs url).contains g.name = true ↔
      g.sites.contains url = true := by
  rw [contains_iff, mem_find_groups_iff]
  constructor
  · rintro ⟨gr, hgr, hname, hcont⟩
    have : gr = g := List.inj_on_of_nodup_map hnd hgr hg hname
    rwa [this] at hcont
  · intro h
    exact ⟨g, hg, rfl, h⟩

/-- Claim C5: after a successful update-site request supplying a `groups`
list whose groups all exist (group names unique, per the data model), the
derived group membership of the site is exactly the requested list; a group
that is both derived and requested, or neither derived nor requested, keeps
its exact record (it is not written at all). -/
theorem update_site_group_reconciliation (req : SiteReq) (site_id tok : String)
    (st : Stores) (site : Site) (wanted : List String) (en : Bool)
    (hfind : st.sites.find? (siteIdIs site_id) = some site)
    (hnd : (st.groups.map Group.name).Nodup)
    (hgroups : req.groups = some wanted)
    (hex : (req.groups.getD []).all (check_group_exists st) = true)
    (hp : (req.plans.getD []).all (check_plan_exists st) = true)
    (hv : req.verification = some en) :
    (∀ g, g ∈ find_groups_for_site (update_site req site_id tok st).2.groups site.url ↔
      g ∈ wanted) ∧
    (∀ gr ∈ st.groups, gr.name ∈ wanted → gr.sites.contains site.url = true →
      gr ∈ (update_site req site_id tok st).2.groups) ∧
    (∀ gr ∈ st.groups, gr.name ∉ wanted → gr.sites.contains site.url = false →
      gr ∈ (update_site req site_id tok st).2.groups) := by
  have hex' : ∀ g ∈ wanted, check_group_exists st g = true := by
    rw [hgroups] at hex
    simpa [List.all_eq_true] using hex
  have hexB : (wanted.any fun g => !check_group_exists st g) = false := by
    have h := hex
    rw [hgroups] at h
    simp only [Option.getD_some] at h
    exact all_imp_any_not h
  have hge : (update_site req site_id tok st).2.groups =
      groupsRemovePhase wanted (find_groups_for_site st.groups site.url) site.url
        (groupsAddPhase wanted (find_groups_for_site st.groups site.url) site.url
          st.groups) := by
    unfold update_site
    simp only [hfind, hgroups, Option.getD_some, hexB, all_imp_any_not hp,
      Bool.false_eq_true, if_false, hv]
    simp only [apply_ite Stores.groups, ite_self]
  have hnd₁ : ((st.groups.map
      (groupAddIf wanted (find_groups_for_site st.groups site.url) site.url)).map
        Group.name).Nodup := by
    rw [List.map_map]
    have heq : (Group.name ∘
        groupAddIf wanted (find_groups_for_site st.groups site.url) site.url) =
        Group.name := by
      funext g
      exact groupAddIf_name _ _ _ g
    rw [heq]
    exact hnd
  have hgmap : (update_site req site_id tok st).2.groups =
      st.groups.map
        (groupPullIf wanted (find_groups_for_site st.groups site.url) site.url ∘
          groupAddIf wanted (find_groups_for_site st.groups site.url) site.url) := by
    rw [hge, groupsAddPhase_eq_map _ _ _ _ hnd, groupsRemovePhase_eq_map _ _ _ _ hnd₁,
      List.map_map]
  have hconB : ∀ g ∈ st.groups,
      (find_groups_for_site st.groups site.url).contains g.name =
        g.sites.contains site.url := by
    intro g hg
    cases hc : g.sites.contains site.url with
    | true => exact (derived_contains_iff hnd hg site.url).mpr hc
    | false =>
      cases hdc : (find_groups_for_site st.groups site.url).contains g.name with
      | false => rfl
      | true =>
        have hcc := (derived_contains_iff hnd hg site.url).mp hdc
        rw [hc] at hcc
        cases hcc
  refine ⟨?_, ?_, ?_⟩
  · intro g
    rw [hgmap, mem_find_groups_iff]
    constructor
    · rintro ⟨gr', hmem', hname', hcont'⟩
      rw [List.mem_map] at hmem'
      obtain ⟨gr, hgr, rfl⟩ := hmem'
      simp only [Function.comp_apply] at hname' hcont'
      rw [groupReconcile_contains _ _ _ _ (hconB gr hgr)] at hcont'
      rw [groupReconcile_name] at hname'
      rw [← hname']
      exact contains_iff.mp hcont'
    · intro hw
      have hexg := hex' g hw
      rw [check_group_exists, List.any_eq_true] at hexg
      obtain ⟨gr, hgr, hgname⟩ := hexg
      rw [beq_iff_eq] at hgname
      refine ⟨_, List.mem_map_of_mem _ hgr, ?_, ?_⟩
      · simp only [Function.comp_apply]
        rw [groupReconcile_name, hgname]
      · simp only [Function.comp_apply]
        rw [groupReconcile_contains _ _ _ _ (hconB gr hgr), hgname]
        exact contains_iff.mpr hw
  · intro gr hgr hw hcont
    have hid := groupReconcile_id wanted (find_groups_for_site st.groups site.url)
      site.url gr (hconB gr hgr) (by rw [hcont]; exact contains_iff.mpr hw)
    rw [hgmap]
    have : (groupPullIf wanted (find_groups_for_site st.groups site.url) site.url ∘
        groupAddIf wanted (find_groups_for_site st.groups site.url) site.url) gr = gr := hid
    rw [← this]
    exact List.mem_map_of_mem _ hgr
  · intro gr hgr hw hcont
    have hwb : wanted.contains gr.name = false := by
      cases h : wanted.contains gr.name with
      | false => rfl
      | true => exact absurd (contains_iff.mp h) hw
    have hid := groupReconcile_id wanted (find_groups_for_site st.groups site.url)
      site.url gr (hconB gr hgr) (by rw [hcont, hwb])
    rw [hgmap]
    have : (groupPullIf wanted (find_groups_for_site st.groups site.url) site.url ∘
        groupAddIf wanted (find_groups_for_site st.groups site.url) site.url) gr = gr := hid
    rw [← this]
    exact List.mem_map_of_mem _ hgr

/-- Fixtures for the C5 witness: derived membership {A, B}, requested
membership [B, C]. -/
def groupA : Group := ⟨"A", ["http://a.b"]⟩

def groupB : Group := ⟨"B", ["http://a.b"]⟩

def groupC : Group := ⟨"C", []⟩

def groupSite : Site := ⟨"id-5", "http://a.b", [], 0, some ⟨false, none⟩⟩

def groupStore : Stores := ⟨[groupSite], [groupA, groupB, groupC], [], [], []⟩

def groupReq : SiteReq := ⟨none, none, some ["B", "C"], some false⟩

theorem update_site_group_reconciliation_witness :
    ("C" ∈ find_groups_for_site
        (update_site groupReq "id-5" "tok" groupStore).2.groups "http://a.b" ↔
      "C" ∈ ["B", "C"]) ∧
    ("A" ∈ find_groups_for_site
        (update_site groupReq "id-5" "tok" groupStore).2.groups "http://a.b" ↔
      "A" ∈ ["B", "C"]) ∧
    groupB ∈ (update_site groupReq "id-5" "tok" groupStore).2.groups :=
  ⟨(update_site_group_reconciliation groupReq "id-5" "tok" groupStore groupSite
      ["B", "C"] false (by decide) (by decide) rfl (by decide) (by decide) rfl).1 "C",
   (update_site_group_reconciliation groupReq "id-5" "tok" groupStore groupSite
      ["B", "C"] false (by decide) (by decide) rfl (by decide) (by decide) rfl).1 "A",
   (update_site_group_reconciliation groupReq "id-5" "tok" groupStore groupSite
      ["B", "C"] false (by decide) (by decide) rfl (by decide) (by decide) rfl).2.1
     groupB (by decide) (by decide) (by decide)⟩

/-! ## Claim C1 — characterizing `_check_site_url`

The claim's grammar demands a scheme in front of every accepted host form
and reads the whole pattern as anchored.  The embedded regular expression
differs twice: its IPv4 alternative carries no scheme at all (it is the
only end-anchored alternative), and its hostname alternative is anchored
only at the start, so arbitrary text — including a `/33` suffix — may
follow the host.  `1.2.3.4` is accepted without any scheme, refuting the
claim; the equivalence with `siteUrlAmendedSpec` below is the amended
statement. -/

/-- Counterexample to claim C1 as stated: the bare address `1.2.3.4` has
no `http(s)://` scheme, so the claim's grammar rejects it, but
`_check_site_url` accepts it. -/
theorem check_site_url_claim_counterexample :
    check_site_url "1.2.3.4" = true ∧ claimSiteUrlGrammar "1.2.3.4" = false :=
  ⟨by decide, by decide⟩

/-! ### Membership characterizations of the matcher combinators -/

theorem mem_mChar {p : Char → Bool} {s r : List Char} :
    r ∈ mChar p s ↔ ∃ c, s = c :: r ∧ p c = true := by
  cases s with
  | nil => simp [mChar]
  | cons c cs =>
    by_cases h : p c = true
    · simp only [mChar, h, if_true, List.mem_singleton]
      constructor
      · rintro rfl
        exact ⟨c, rfl, h⟩
      · rintro ⟨c', heq, _⟩
        cases heq
        rfl
    · simp only [mChar, h, if_false]
      constructor
      · intro hmem
        simp at hmem
      · rintro ⟨c', heq, hc'⟩
        cases heq
        exact absurd hc' h

theorem dropLit_eq_some_iff :
    ∀ {l s r : List Char}, dropLit l s = some r ↔ s = l ++ r
  | [], s, r => by simp [dropLit]
  | c :: l, [], r => by simp [dropLit]
  | c :: l, d :: s, r => by
    by_cases h : c = d
    · subst h
      simp only [dropLit, if_pos rfl, List.cons_append, List.cons.injEq, true_and]
      exact dropLit_eq_some_iff
    · simp only [dropLit, if_neg h, List.cons_append]
      constructor
      · intro hf
        cases hf
      · rintro ⟨rfl, -⟩
        exact absurd rfl h

theorem mem_mLit {l s r : List Char} : r ∈ mLit l s ↔ s = l ++ r := by
  unfold mLit
  cases hd : dropLit l s with
  | none =>
    simp only [List.not_mem_nil, false_iff]
    intro hs
    rw [dropLit_eq_some_iff.mpr hs] at hd
    cases hd
  | some r' =>
    have hs := dropLit_eq_some_iff.mp hd
    simp only [List.mem_singleton]
    constructor
    · rintro rfl
      exact hs
    · rintro rfl
      have h2 : dropLit l (l ++ r) = some r := dropLit_eq_some_iff.mpr rfl
      rw [h2] at hd
      exact Option.some_inj.mp hd

theorem mem_mSeq {m₁ m₂ : Matcher} {s r : List Char} :
    r ∈ mSeq m₁ m₂ s ↔ ∃ r₁ ∈ m₁ s, r ∈ m₂ r₁ := mem_concatMap

theorem mem_mAlt {m₁ m₂ : Matcher} {s r : List Char} :
    r ∈ mAlt m₁ m₂ s ↔ r ∈ m₁ s ∨ r ∈ m₂ s := List.mem_append

theorem mem_mOpt {m : Matcher} {s r : List Char} :
    r ∈ mOpt m s ↔ r ∈ m s ∨ r = s := by
  simp [mOpt]

theorem mStarCls_self (p : Char → Bool) : ∀ s : List Char, s ∈ mStarCls p s
  | [] => by simp [mStarCls]
  | c :: cs => by simp [mStarCls]

theorem exists_mem_mPlus_iff {m : Matcher} {fuel : Nat} {s : List Char} :
    (∃ r, r ∈ mPlus m fuel s) ↔ 1 ≤ fuel ∧ ∃ r, r ∈ m s := by
  cases fuel with
  | zero => simp [mPlus]
  | succ n =>
    simp only [mPlus, Nat.le_add_left, true_and]
    constructor
    · rintro ⟨r, hr⟩
      obtain ⟨a, ha, -⟩ := mem_concatMap.mp hr
      exact ⟨a, ha⟩
    · rintro ⟨r, hr⟩
      exact ⟨r, mem_concatMap.mpr ⟨r, hr, by simp⟩⟩

/-! ### The first alternative: scheme and host start -/

theorem http_append (r : List Char) :
    "http".data ++ ("://".data ++ r) = "http://".data ++ r := by
  rw [← List.append_assoc]
  rfl

theorem https_append (r : List Char) :
    "https".data ++ ("://".data ++ r) = "https://".data ++ r := by
  rw [← List.append_assoc]
  rfl

theorem mem_schemeM {s r : List Char} :
    r ∈ schemeM s ↔ (s = "http://".data ++ r ∨ s = "https://".data ++ r) := by
  unfold schemeM
  rw [mem_mSeq]
  constructor
  · rintro ⟨r₁, hr₁, hr⟩
    rw [mem_mAlt, mem_mLit, mem_mLit] at hr₁
    rw [mem_mLit] at hr
    subst hr
    rcases hr₁ with h | h
    · left
      rw [h, http_append]
    · right
      rw [h, https_append]
  · rintro (h | h)
    · refine ⟨"://".data ++ r, ?_, ?_⟩
      · rw [mem_mAlt, mem_mLit]
        left
        rw [h, http_append]
      · rw [mem_mLit]
    · refine ⟨"://".data ++ r, ?_, ?_⟩
      · rw [mem_mAlt, mem_mLit, mem_mLit]
        right
        rw [h, https_append]
      · rw [mem_mLit]

theorem dotLabel_exists {rb : List Char} :
    (∃ rd, rd ∈ dotLabelM rb) ↔ ∃ d rf, rb = '.' :: d :: rf ∧ isHostStart d = true := by
  unfold dotLabelM
  constructor
  · rintro ⟨rd, hrd⟩
    rw [mem_mSeq] at hrd
    obtain ⟨re, hre, hrd⟩ := hrd
    rw [mem_mLit] at hre
    rw [mem_mSeq] at hrd
    obtain ⟨rf, hrf, -⟩ := hrd
    rw [mem_mChar] at hrf
    obtain ⟨d, hde, hd⟩ := hrf
    exact ⟨d, rf, by simp [hre, hde], hd⟩
  · rintro ⟨d, rf, rfl, hd⟩
    refine ⟨rf, ?_⟩
    rw [mem_mSeq]
    refine ⟨d :: rf, by rw [mem_mLit]; simp, ?_⟩
    rw [mem_mSeq]
    exact ⟨rf, mem_mChar.mpr ⟨d, rfl, hd⟩, mStarCls_self _ _⟩

theorem starCls_dot_scan :
    ∀ r₁ : List Char,
      ((∃ rb ∈ mStarCls isHostChar r₁, ∃ d rf, rb = '.' :: d :: rf ∧ isHostStart d = true) ↔
        hasLabelDot r₁ = true)
  | [] => by
    simp [mStarCls, hasLabelDot]
  | [a] => by
    constructor
    · rintro ⟨rb, hrb, d, rf, hshape, -⟩
      simp only [mStarCls, List.mem_cons, List.mem_singleton] at hrb
      rcases hrb with rfl | hrb
      · cases hshape
      · rcases (by split at hrb <;> simp_all :
          rb ∈ mStarCls isHostChar [] ∨ rb ∈ ([] : List (List Char))) with h | h
        · simp only [mStarCls, List.mem_singleton] at h
          subst h
          cases hshape
        · cases h
    · intro h
      cases h
  | a :: b :: rest => by
    constructor
    · rintro ⟨rb, hrb, d, rf, hshape, hd⟩
      simp only [mStarCls, List.mem_cons] at hrb
      rcases hrb with rfl | hrb
      · rcases hshape with ⟨rfl, rfl, rfl⟩
        unfold hasLabelDot
        simp [hd]
      · have ha : isHostChar a = true := by
          by_contra hh
          simp only [Bool.not_eq_true] at hh
          rw [hh] at hrb
          simp at hrb
        rw [ha] at hrb
        have ih := (starCls_dot_scan (b :: rest)).mp ⟨rb, hrb, d, rf, hshape, hd⟩
        unfold hasLabelDot
        simp [ha, ih]
    · intro h
      unfold hasLabelDot at h
      rw [Bool.or_eq_true] at h
      rcases h with h₁ | h₂
      · rw [Bool.and_eq_true] at h₁
        obtain ⟨ha, hb⟩ := h₁
        rw [beq_iff_eq] at ha
        subst ha
        exact ⟨'.' :: b :: rest, by simp [mStarCls], b, rest, rfl, hb⟩
      · rw [Bool.and_eq_true] at h₂
        obtain ⟨ha, hrest⟩ := h₂
        obtain ⟨rb, hrb, d, rf, hshape, hd⟩ := (starCls_dot_scan (b :: rest)).mpr hrest
        refine ⟨rb, ?_, d, rf, hshape, hd⟩
        have hm : (if isHostChar a = true then mStarCls isHostChar (b :: rest) else []) =
            mStarCls isHostChar (b :: rest) := by
          simp [ha]
        rw [show mStarCls isHostChar (a :: b :: rest) =
            (a :: b :: rest) ::
              (if isHostChar a = true then mStarCls isHostChar (b :: rest) else [])
          from rfl, hm]
        exact List.mem_cons_of_mem _ hrb

theorem hostname_exists {fuel : Nat} {r₁ : List Char} (hfuel : 1 ≤ fuel) :
    (∃ r₂, r₂ ∈ hostnameM fuel r₁) ↔ hostnameStartOk r₁ = true := by
  unfold hostnameM
  constructor
  · rintro ⟨r₂, hr₂⟩
    rw [mem_mSeq] at hr₂
    obtain ⟨ra, hra, hr₂⟩ := hr₂
    rw [mem_mChar] at hra
    obtain ⟨c, rfl, hc⟩ := hra
    rw [mem_mSeq] at hr₂
    obtain ⟨rb, hrb, hr₂⟩ := hr₂
    have hplus : ∃ r, r ∈ mPlus dotLabelM fuel rb := ⟨r₂, hr₂⟩
    obtain ⟨-, rd, hrd⟩ := exists_mem_mPlus_iff.mp hplus
    have hdot := dotLabel_exists.mp ⟨rd, hrd⟩
    obtain ⟨d, rf, hshape, hd⟩ := hdot
    have hscan := (starCls_dot_scan ra).mp ⟨rb, hrb, d, rf, hshape, hd⟩
    unfold hostnameStartOk
    simp [hc, hscan]
  · intro h
    unfold hostnameStartOk at h
    cases r₁ with
    | nil => cases h
    | cons c ra =>
      rw [Bool.and_eq_true] at h
      obtain ⟨hc, hscan⟩ := h
      obtain ⟨rb, hrb, d, rf, hshape, hd⟩ := (starCls_dot_scan ra).mpr hscan
      obtain ⟨rd, hrd⟩ := dotLabel_exists.mpr ⟨d, rf, hshape, hd⟩
      obtain ⟨rp, hrp⟩ :=
        (@exists_mem_mPlus_iff dotLabelM fuel rb).mpr ⟨hfuel, rd, hrd⟩
      refine ⟨rp, ?_⟩
      rw [mem_mSeq]
      refine ⟨ra, mem_mChar.mpr ⟨c, rfl, hc⟩, ?_⟩
      rw [mem_mSeq]
      exact ⟨rb, hrb, hrp⟩

theorem hostTail_exists {fuel : Nat} {r₁ : List Char} (hfuel : 1 ≤ fuel) :
    (∃ r₂, r₂ ∈ hostM fuel r₁) ↔ hostTailOk r₁ = true := by
  unfold hostM hostTailOk
  constructor
  · rintro ⟨r₂, hr₂⟩
    rw [mem_mAlt] at hr₂
    rcases hr₂ with h | h
    · rw [mem_mLit] at h
      have : dropLit "localhost".data r₁ = some r₂ := dropLit_eq_some_iff.mpr h
      simp [this]
    · have := (hostname_exists hfuel).mp ⟨r₂, h⟩
      simp [this]
  · intro h
    rw [Bool.or_eq_true] at h
    rcases h with h | h
    · rw [Option.isSome_iff_exists] at h
      obtain ⟨r₂, hr₂⟩ := h
      exact ⟨r₂, mem_mAlt.mpr (Or.inl (mem_mLit.mpr (dropLit_eq_some_iff.mp hr₂)))⟩
    · obtain ⟨r₂, hr₂⟩ := (hostname_exists hfuel).mpr h
      exact ⟨r₂, mem_mAlt.mpr (Or.inr hr₂)⟩

theorem scheme_prefix_disjoint {q r : List Char} :
    "http://".data ++ q = "https://".data ++ r → False := by
  intro h
  have h' : ('h' :: 't' :: 't' :: 'p' :: ':' :: '/' :: '/' :: q : List Char) =
      'h' :: 't' :: 't' :: 'p' :: 's' :: ':' :: '/' :: '/' :: r := h
  simp at h'

theorem altA_exists (cs : List Char) :
    (∃ r, r ∈ altA cs.length cs) ↔ schemeHostOk cs = true := by
  unfold altA
  constructor
  · rintro ⟨r, hr⟩
    rw [mem_mSeq] at hr
    obtain ⟨r₁, hr₁, hr⟩ := hr
    rw [mem_mSeq] at hr
    obtain ⟨r₂, hr₂, -⟩ := hr
    rw [mem_schemeM] at hr₁
    unfold schemeHostOk
    rcases hr₁ with h | h
    · have hlen : 1 ≤ cs.length := by
        rw [h, List.length_append]
        have h7 : ("http://".data).length = 7 := rfl
        omega
      have hdrop : dropLit "http://".data cs = some r₁ := dropLit_eq_some_iff.mpr h
      rw [hdrop]
      exact (hostTail_exists hlen).mp ⟨r₂, hr₂⟩
    · have hlen : 1 ≤ cs.length := by
        rw [h, List.length_append]
        have h8 : ("https://".data).length = 8 := rfl
        omega
      have hdrop : dropLit "https://".data cs = some r₁ := dropLit_eq_some_iff.mpr h
      have hdrop' : dropLit "http://".data cs = none := by
        cases hd : dropLit "http://".data cs with
        | none => rfl
        | some q =>
          have h1 := dropLit_eq_some_iff.mp hd
          exact absurd (h1.symm.trans h) (fun hh => scheme_prefix_disjoint hh)
      rw [hdrop', hdrop]
      exact (hostTail_exists hlen).mp ⟨r₂, hr₂⟩
  · intro h
    unfold schemeHostOk at h
    cases hd₁ : dropLit "http://".data cs with
    | some rest =>
      rw [hd₁] at h
      have hcs := dropLit_eq_some_iff.mp hd₁
      have hlen : 1 ≤ cs.length := by
        rw [hcs, List.length_append]
        have h7 : ("http://".data).length = 7 := rfl
        omega
      obtain ⟨r₂, hr₂⟩ := (hostTail_exists hlen).mpr h
      refine ⟨r₂, ?_⟩
      rw [mem_mSeq]
      refine ⟨rest, mem_schemeM.mpr (Or.inl hcs), ?_⟩
      rw [mem_mSeq]
      exact ⟨r₂, hr₂, mem_mOpt.mpr (Or.inr rfl)⟩
    | none =>
      rw [hd₁] at h
      cases hd₂ : dropLit "https://".data cs with
      | none =>
        rw [hd₂] at h
        cases h
      | some rest =>
        rw [hd₂] at h
        have hcs := dropLit_eq_some_iff.mp hd₂
        have hlen : 1 ≤ cs.length := by
          rw [hcs, List.length_append]
          have h8 : ("https://".data).length = 8 := rfl
          omega
        obtain ⟨r₂, hr₂⟩ := (hostTail_exists hlen).mpr h
        refine ⟨r₂, ?_⟩
        rw [mem_mSeq]
        refine ⟨rest, mem_schemeM.mpr (Or.inr hcs), ?_⟩
        rw [mem_mSeq]
        exact ⟨r₂, hr₂, mem_mOpt.mpr (Or.inr rfl)⟩

/-! ### The second alternative: octets, CIDR, end anchor -/

theorem isDigit09_of_isNonZero {c : Char} (h : isNonZero c = true) :
    isDigit09 c = true := by
  simp only [isNonZero, decide_eq_true_eq] at h
  simp only [isDigit09, decide_eq_true_eq]
  exact ⟨le_trans (by decide) h.1, h.2⟩

theorem isDigit09_of_isOct14 {c : Char} (h : isOct14 c = true) :
    isDigit09 c = true := by
  simp only [isOct14, decide_eq_true_eq] at h
  simp only [isDigit09, decide_eq_true_eq]
  exact ⟨h.1, le_trans h.2 (by decide)⟩

theorem isDigit09_of_isOct15 {c : Char} (h : isOct15 c = true) :
    isDigit09 c = true := by
  simp only [isOct15, decide_eq_true_eq] at h
  simp only [isDigit09, decide_eq_true_eq]
  exact ⟨h.1, le_trans h.2 (by decide)⟩

theorem isDigit09_of_isOct12 {c : Char} (h : isOct12 c = true) :
    isDigit09 c = true := by
  simp only [isOct12, decide_eq_true_eq] at h
  simp only [isDigit09, decide_eq_true_eq]
  exact ⟨h.1, le_trans h.2 (by decide)⟩

theorem isDigit09_of_beq {c d : Char} (hd : isDigit09 d = true)
    (h : (c == d) = true) : isDigit09 c = true := by
  rw [beq_iff_eq] at h
  rw [h]
  exact hd

theorem isDigit09_of_isOneTwo {c : Char} (h : isOneTwo c = true) :
    isDigit09 c = true := by
  rw [isOneTwo, Bool.or_eq_true] at h
  rcases h with h | h <;> rw [beq_iff_eq] at h <;> rw [h] <;> decide

theorem octetStrOk_all_digits :
    ∀ {t : List Char}, octetStrOk t = true → t.all isDigit09 = true
  | [], h => by cases h
  | [a], h => by
    simp only [octetStrOk] at h
    simp [h]
  | [a, b], h => by
    simp only [octetStrOk, Bool.and_eq_true] at h
    simp [isDigit09_of_isNonZero h.1, h.2]
  | [a, b, c], h => by
    simp only [octetStrOk, Bool.or_eq_true, Bool.and_eq_true] at h
    rcases h with (⟨ha, hb, hc⟩ | ⟨ha, hb, hc⟩) | ⟨ha, hb, hc⟩
    · simp [isDigit09_of_beq (by decide) ha, hb, hc]
    · simp [isDigit09_of_beq (by decide) ha, isDigit09_of_isOct14 hb, hc]
    · simp [isDigit09_of_beq (by decide) ha, isDigit09_of_beq (by decide) hb,
        isDigit09_of_isOct15 hc]
  | a :: b :: c :: d :: t, h => by cases h

theorem cidrStrOk_all_digits :
    ∀ {t : List Char}, cidrStrOk t = true → t.all isDigit09 = true
  | [], h => by cases h
  | [a], h => by
    simp only [cidrStrOk] at h
    simp [h]
  | [a, b], h => by
    simp only [cidrStrOk, Bool.or_eq_true, Bool.and_eq_true] at h
    rcases h with ⟨ha, hb⟩ | ⟨ha, hb⟩
    · simp [isDigit09_of_isOneTwo ha, hb]
    · simp [isDigit09_of_beq (by decide) ha, isDigit09_of_isOct12 hb]
  | a :: b :: c :: t, h => by cases h

theorem mem_octetM {s r : List Char} :
    r ∈ octetM s ↔ ∃ t, s = t ++ r ∧ octetStrOk t = true := by
  simp only [octetM, mem_mAlt, mem_mSeq, mem_mChar]
  constructor
  · rintro (⟨c, rfl, hc⟩ |
      ⟨r₁, ⟨c₁, rfl, h₁⟩, c₂, rfl, h₂⟩ |
      ⟨r₁, ⟨c₁, rfl, h₁⟩, r₂, ⟨c₂, rfl, h₂⟩, c₃, rfl, h₃⟩ |
      ⟨r₁, ⟨c₁, rfl, h₁⟩, r₂, ⟨c₂, rfl, h₂⟩, c₃, rfl, h₃⟩ |
      ⟨r₁, ⟨c₁, rfl, h₁⟩, r₂, ⟨c₂, rfl, h₂⟩, c₃, rfl, h₃⟩)
    · exact ⟨[c], rfl, by simp [octetStrOk, hc]⟩
    · exact ⟨[c₁, c₂], rfl, by simp [octetStrOk, h₁, h₂]⟩
    · exact ⟨[c₁, c₂, c₃], rfl, by simp [octetStrOk, h₁, h₂, h₃]⟩
    · exact ⟨[c₁, c₂, c₃], rfl, by simp [octetStrOk, h₁, h₂, h₃]⟩
    · exact ⟨[c₁, c₂, c₃], rfl, by simp [octetStrOk, h₁, h₂, h₃]⟩
  · rintro ⟨t, rfl, ht⟩
    match t, ht with
    | [a], ht =>
      exact Or.inl ⟨a, rfl, by simpa [octetStrOk] using ht⟩
    | [a, b], ht =>
      rw [show octetStrOk [a, b] = (isNonZero a && isDigit09 b) from rfl,
        Bool.and_eq_true] at ht
      exact Or.inr (Or.inl ⟨b :: r, ⟨a, rfl, ht.1⟩, b, rfl, ht.2⟩)
    | [a, b, c], ht =>
      rw [show octetStrOk [a, b, c] =
          ((a == '1' && (isDigit09 b && isDigit09 c)) ||
           (a == '2' && (isOct14 b && isDigit09 c)) ||
           (a == '2' && (b == '5' && isOct15 c))) from rfl] at ht
      rw [Bool.or_eq_true, Bool.or_eq_true] at ht
      rcases ht with (ht | ht) | ht
      · rw [Bool.and_eq_true, Bool.and_eq_true] at ht
        exact Or.inr (Or.inr (Or.inl
          ⟨b :: c :: r, ⟨a, rfl, ht.1⟩, c :: r, ⟨b, rfl, ht.2.1⟩, c, rfl, ht.2.2⟩))
      · rw [Bool.and_eq_true, Bool.and_eq_true] at ht
        exact Or.inr (Or.inr (Or.inr (Or.inl
          ⟨b :: c :: r, ⟨a, rfl, ht.1⟩, c :: r, ⟨b, rfl, ht.2.1⟩, c, rfl, ht.2.2⟩)))
      · rw [Bool.and_eq_true, Bool.and_eq_true] at ht
        exact Or.inr (Or.inr (Or.inr (Or.inr
          ⟨b :: c :: r, ⟨a, rfl, ht.1⟩, c :: r, ⟨b, rfl, ht.2.1⟩, c, rfl, ht.2.2⟩)))

theorem mem_cidrNumM {s r : List Char} :
    r ∈ cidrNumM s ↔ ∃ t, s = t ++ r ∧ cidrStrOk t = true := by
  simp only [cidrNumM, mem_mAlt, mem_mSeq, mem_mChar]
  constructor
  · rintro (⟨c, rfl, hc⟩ |
      ⟨r₁, ⟨c₁, rfl, h₁⟩, c₂, rfl, h₂⟩ |
      ⟨r₁, ⟨c₁, rfl, h₁⟩, c₂, rfl, h₂⟩)
    · exact ⟨[c], rfl, by simp [cidrStrOk, hc]⟩
    · exact ⟨[c₁, c₂], rfl, by simp [cidrStrOk, h₁, h₂]⟩
    · exact ⟨[c₁, c₂], rfl, by simp [cidrStrOk, h₁, h₂]⟩
  · rintro ⟨t, rfl, ht⟩
    match t, ht with
    | [a], ht =>
      exact Or.inl ⟨a, rfl, by simpa [cidrStrOk] using ht⟩
    | [a, b], ht =>
      rw [show cidrStrOk [a, b] =
          ((isOneTwo a && isDigit09 b) || (a == '3' && isOct12 b)) from rfl] at ht
      rw [Bool.or_eq_true] at ht
      rcases ht with ht | ht
      · rw [Bool.and_eq_true] at ht
        exact Or.inr (Or.inl ⟨b :: r, ⟨a, rfl, ht.1⟩, b, rfl, ht.2⟩)
      · rw [Bool.and_eq_true] at ht
        exact Or.inr (Or.inr ⟨b :: r, ⟨a, rfl, ht.1⟩, b, rfl, ht.2⟩)

/-- The first character of `r` (if any) fails `p`. -/
def headFails (p : Char → Bool) : List Char → Prop
  | [] => True
  | c :: _ => p c = false

theorem takeWhile_append_all {p : Char → Bool} :
    ∀ (t r : List Char), t.all p = true → headFails p r → (t ++ r).takeWhile p = t
  | [], r, _, hr => by
    cases r with
    | nil => rfl
    | cons c rest =>
      have hc : p c = false := hr
      simp [List.takeWhile_cons, hc]
  | c :: t, r, hall, hr => by
    simp only [List.all_cons, Bool.and_eq_true] at hall
    simp [List.cons_append, List.takeWhile_cons, hall.1,
      takeWhile_append_all t r hall.2 hr]

theorem dropWhile_append_all {p : Char → Bool} :
    ∀ (t r : List Char), t.all p = true → headFails p r → (t ++ r).dropWhile p = r
  | [], r, _, hr => by
    cases r with
    | nil => rfl
    | cons c rest =>
      have hc : p c = false := hr
      simp [List.dropWhile_cons, hc]
  | c :: t, r, hall, hr => by
    simp only [List.all_cons, Bool.and_eq_true] at hall
    simp [List.cons_append, List.dropWhile_cons, hall.1,
      dropWhile_append_all t r hall.2 hr]

theorem octetDotStep_iff {cs r₁ : List Char} :
    octetDotStep cs = some r₁ ↔ ∃ t, cs = t ++ '.' :: r₁ ∧ octetStrOk t = true := by
  constructor
  · intro h
    unfold octetDotStep at h
    split at h
    case _ rest heq =>
      split at h
      case _ hok =>
        cases h
        refine ⟨cs.takeWhile isDigit09, ?_, hok⟩
        conv_lhs => rw [← List.takeWhile_append_dropWhile (p := isDigit09) (l := cs)]
        rw [heq]
      case _ => cases h
    case _ => cases h
  · rintro ⟨t, rfl, ht⟩
    have hall := octetStrOk_all_digits ht
    have hhead : headFails isDigit09 ('.' :: r₁) := by
      show isDigit09 '.' = false
      decide
    unfold octetDotStep
    rw [dropWhile_append_all t _ hall hhead, takeWhile_append_all t _ hall hhead]
    simp [ht]

theorem mem_octDotM {s r₁ : List Char} :
    r₁ ∈ octDotM s ↔ ∃ t, s = t ++ '.' :: r₁ ∧ octetStrOk t = true := by
  unfold octDotM
  rw [mem_mSeq]
  constructor
  · rintro ⟨ra, hra, hlit⟩
    rw [mem_mLit] at hlit
    obtain ⟨t, rfl, ht⟩ := mem_octetM.mp hra
    exact ⟨t, by rw [hlit]; rfl, ht⟩
  · rintro ⟨t, rfl, ht⟩
    exact ⟨'.' :: r₁, mem_octetM.mpr ⟨t, rfl, ht⟩, mem_mLit.mpr rfl⟩

theorem mem_cidrM {r₄ r₅ : List Char} :
    r₅ ∈ cidrM r₄ ↔
      (r₅ = r₄ ∨ ∃ t, r₄ = '/' :: (t ++ r₅) ∧ cidrStrOk t = true) := by
  unfold cidrM
  rw [mem_mOpt]
  constructor
  · rintro (h | h)
    · rw [mem_mSeq] at h
      obtain ⟨ra, hra, hnum⟩ := h
      rw [mem_mChar] at hra
      obtain ⟨c, rfl, hc⟩ := hra
      rw [beq_iff_eq] at hc
      subst hc
      obtain ⟨t, rfl, ht⟩ := mem_cidrNumM.mp hnum
      exact Or.inr ⟨t, rfl, ht⟩
    · exact Or.inl h
  · rintro (rfl | ⟨t, rfl, ht⟩)
    · exact Or.inr rfl
    · refine Or.inl ?_
      rw [mem_mSeq]
      exact ⟨t ++ r₅, mem_mChar.mpr ⟨'/', rfl, by decide⟩, mem_cidrNumM.mpr ⟨t, rfl, ht⟩⟩

theorem endAnchor_iff {r : List Char} :
    endAnchor r = true ↔ r = [] ∨ r = ['\n'] := by
  simp [endAnchor]

theorem ipv4SpecTail_iff {cs : List Char} :
    (∃ r₄, r₄ ∈ octetM cs ∧ ∃ r₅, r₅ ∈ cidrM r₄ ∧ endAnchor r₅ = true) ↔
      ipv4SpecTail cs = true := by
  constructor
  · rintro ⟨r₄, h₄, r₅, h₅, hend⟩
    obtain ⟨t, rfl, ht⟩ := mem_octetM.mp h₄
    have hall := octetStrOk_all_digits ht
    rcases mem_cidrM.mp h₅ with rfl | ⟨t₅, rfl, ht₅⟩
    · rcases endAnchor_iff.mp hend with rfl | rfl
      · unfold ipv4SpecTail
        rw [takeWhile_append_all t [] hall trivial,
          dropWhile_append_all t [] hall trivial]
        simp [ht]
      · have hh : headFails isDigit09 ['\n'] := by
          show isDigit09 '\n' = false
          decide
        unfold ipv4SpecTail
        rw [takeWhile_append_all t _ hall hh, dropWhile_append_all t _ hall hh]
        simp [ht]
    · have hall₅ := cidrStrOk_all_digits ht₅
      have hh : headFails isDigit09 ('/' :: (t₅ ++ r₅)) := by
        show isDigit09 '/' = false
        decide
      rcases endAnchor_iff.mp hend with rfl | rfl
      · unfold ipv4SpecTail
        rw [takeWhile_append_all t _ hall hh, dropWhile_append_all t _ hall hh]
        show (octetStrOk t &&
          (cidrStrOk ((t₅ ++ ([] : List Char)).takeWhile isDigit09) &&
            (match (t₅ ++ ([] : List Char)).dropWhile isDigit09 with
             | [] => true
             | ['\n'] => true
             | _ => false))) = true
        rw [takeWhile_append_all t₅ [] hall₅ trivial,
          dropWhile_append_all t₅ [] hall₅ trivial]
        simp [ht, ht₅]
      · have hh₅ : headFails isDigit09 ['\n'] := by
          show isDigit09 '\n' = false
          decide
        unfold ipv4SpecTail
        rw [takeWhile_append_all t _ hall hh, dropWhile_append_all t _ hall hh]
        show (octetStrOk t &&
          (cidrStrOk ((t₅ ++ ['\n']).takeWhile isDigit09) &&
            (match (t₅ ++ ['\n']).dropWhile isDigit09 with
             | [] => true
             | ['\n'] => true
             | _ => false))) = true
        rw [takeWhile_append_all t₅ _ hall₅ hh₅, dropWhile_append_all t₅ _ hall₅ hh₅]
        simp [ht, ht₅]
  · intro h
    unfold ipv4SpecTail at h
    rw [Bool.and_eq_true] at h
    obtain ⟨hok, hrest⟩ := h
    have hsplit := (List.takeWhile_append_dropWhile (p := isDigit09) (l := cs)).symm
    split at hrest
    case _ heq =>
      exact ⟨[], mem_octetM.mpr ⟨cs.takeWhile isDigit09,
        hsplit.trans (by rw [heq]), hok⟩,
        [], mem_cidrM.mpr (Or.inl rfl), by decide⟩
    case _ heq =>
      exact ⟨['\n'], mem_octetM.mpr ⟨cs.takeWhile isDigit09,
        hsplit.trans (by rw [heq]), hok⟩,
        ['\n'], mem_cidrM.mpr (Or.inl rfl), by decide⟩
    case _ rest heq =>
      rw [Bool.and_eq_true] at hrest
      obtain ⟨hc₅, hrest₂⟩ := hrest
      have hsplit₂ := (List.takeWhile_append_dropWhile (p := isDigit09) (l := rest)).symm
      split at hrest₂
      case _ heq₂ =>
        have h5 : rest = rest.takeWhile isDigit09 ++ [] := hsplit₂.trans (by rw [heq₂])
        refine ⟨'/' :: rest, mem_octetM.mpr ⟨cs.takeWhile isDigit09,
          hsplit.trans (by rw [heq]), hok⟩,
          [], mem_cidrM.mpr (Or.inr ⟨rest.takeWhile isDigit09, ?_, hc₅⟩), by decide⟩
        rw [← h5]
      case _ heq₂ =>
        have h5 : rest = rest.takeWhile isDigit09 ++ ['\n'] := hsplit₂.trans (by rw [heq₂])
        refine ⟨'/' :: rest, mem_octetM.mpr ⟨cs.takeWhile isDigit09,
          hsplit.trans (by rw [heq]), hok⟩,
          ['\n'], mem_cidrM.mpr (Or.inr ⟨rest.takeWhile isDigit09, ?_, hc₅⟩), by decide⟩
        rw [← h5]
      case _ => cases hrest₂
    case _ => cases hrest

theorem altB_any_iff (cs : List Char) :
    (altB cs).any endAnchor = true ↔ ipv4Spec cs = true := by
  rw [List.any_eq_true]
  constructor
  · rintro ⟨r, hr, hend⟩
    rw [altB, mem_mSeq] at hr
    obtain ⟨r₁, h₁, hr⟩ := hr
    rw [mem_mSeq] at hr
    obtain ⟨r₂, h₂, hr⟩ := hr
    rw [mem_mSeq] at hr
    obtain ⟨r₃, h₃, hr⟩ := hr
    rw [mem_mSeq] at hr
    obtain ⟨r₄, h₄, h₅⟩ := hr
    have e₁ : octetDotStep cs = some r₁ := octetDotStep_iff.mpr (mem_octDotM.mp h₁)
    have e₂ : octetDotStep r₁ = some r₂ := octetDotStep_iff.mpr (mem_octDotM.mp h₂)
    have e₃ : octetDotStep r₂ = some r₃ := octetDotStep_iff.mpr (mem_octDotM.mp h₃)
    unfold ipv4Spec
    simp only [e₁, e₂, e₃]
    exact ipv4SpecTail_iff.mp ⟨r₄, h₄, r, h₅, hend⟩
  · intro h
    unfold ipv4Spec at h
    cases e₁ : octetDotStep cs with
    | none =>
      simp only [e₁] at h
      cases h
    | some r₁ =>
      simp only [e₁] at h
      cases e₂ : octetDotStep r₁ with
      | none =>
        simp only [e₂] at h
        cases h
      | some r₂ =>
        simp only [e₂] at h
        cases e₃ : octetDotStep r₂ with
        | none =>
          simp only [e₃] at h
          cases h
        | some r₃ =>
          simp only [e₃] at h
          obtain ⟨r₄, h₄, r₅, h₅, hend⟩ := ipv4SpecTail_iff.mpr h
          refine ⟨r₅, ?_, hend⟩
          rw [altB, mem_mSeq]
          refine ⟨r₁, mem_octDotM.mpr (octetDotStep_iff.mp e₁), ?_⟩
          rw [mem_mSeq]
          refine ⟨r₂, mem_octDotM.mpr (octetDotStep_iff.mp e₂), ?_⟩
          rw [mem_mSeq]
          refine ⟨r₃, mem_octDotM.mpr (octetDotStep_iff.mp e₃), ?_⟩
          rw [mem_mSeq]
          exact ⟨r₄, h₄, h₅⟩

theorem bool_eq_of_true_iff {a b : Bool} (h : a = true ↔ b = true) : a = b := by
  cases a <;> cases b <;> simp_all

theorem not_isEmpty_iff {l : List α} : (!l.isEmpty) = true ↔ ∃ x, x ∈ l := by
  cases l <;> simp

/-- Amended claim C1: `_check_site_url(url)` returns true iff either url
begins with `http(s)://` followed by `localhost` or by the first two labels
of a hostname (an `[a-z0-9]` character, a possibly empty `[-a-z0-9]` run, a
dot and an `[a-z0-9]` character), everything after that point — port, path,
or a `/33` suffix — being unconstrained; or the entire url (up to one final
newline) is a bare dotted-quad IPv4 address, with no scheme, optionally
followed by a `/0`–`/32` CIDR suffix.  In particular `ftp://x` and
single-label `http://foo` are still rejected, but `1.2.3.4` and
`http://a.b/33` are accepted. -/
theorem check_site_url_amended (url : String) :
    check_site_url url = siteUrlAmendedSpec url := by
  show (!(altA url.data.length url.data).isEmpty || (altB url.data).any endAnchor) =
    (schemeHostOk url.data || ipv4Spec url.data)
  rw [bool_eq_of_true_iff (not_isEmpty_iff.trans (altA_exists url.data)),
    bool_eq_of_true_iff (altB_any_iff url.data)]

end MinionBackend
